import Mathlib

/-!
# Shallow embedding of the vehicle tracking-and-counting engine

This file embeds the core of `vehicle_counter.py` (classes `VehicleTracker`
and `VehicleCounter`) in Lean 4 and proves properties of the embedding.

Modelling conventions:
* Python floats are modelled as exact rationals (`ℚ`); machine ints as `Int`/`Nat`.
* `datetime.now()` is replaced by an explicit `now : Int` parameter threaded
  into `update`; `last_seen` stores such a timestamp.
* The Python dict `self.trackers` (insertion ordered, distinct keys) is an
  association list `List (Nat × VehicleTracker)`; the well-formedness of the
  dict representation (distinct keys, keys below `next_track_id`) is the
  predicate `VehicleCounter.WF`.
* Vehicle display categories come from `CLASS_MAPPING` in
  `detection_service.py` (codomain `Car`, `Bus`, `2-Wheeler`, `Truck`) plus
  the `Unknown` default.
* `int(x)` on a Python float truncates toward zero: modelled by `ratTrunc`.
-/

/-- Display categories: codomain of `CLASS_MAPPING` plus the `Unknown` default. -/
inductive Category where
  | Car
  | Bus
  | TwoWheeler
  | Truck
  | Unknown
deriving DecidableEq, Repr

instance : Fintype Category :=
  ⟨⟨{.Car, .Bus, .TwoWheeler, .Truck, .Unknown}, by decide⟩, by intro x; cases x <;> decide⟩

/-- Semantic counting events: the strings `'IN'` and `'OUT'`. -/
inductive Event where
  | IN
  | OUT
deriving DecidableEq, Repr

instance : Fintype Event := ⟨⟨{.IN, .OUT}, by decide⟩, by intro x; cases x <;> decide⟩

/-- Trajectory directions: the strings `'LEFT'` and `'RIGHT'`. -/
inductive Dir where
  | LEFT
  | RIGHT
deriving DecidableEq, Repr

/-- A bounding box `(x1, y1, x2, y2)` in pixel coordinates (Python floats). -/
structure Box where
  x1 : ℚ
  y1 : ℚ
  x2 : ℚ
  y2 : ℚ
deriving DecidableEq, Repr

/-- One detection dictionary as consumed by the counter: the fields
`bbox`, `display_category` and `confidence` of the Python detection dict. -/
structure Detection where
  bbox : Box
  display_category : Category
  confidence : ℚ
deriving DecidableEq, Repr

/-- Python `int(q)` for a rational `q`: truncation toward zero
(`Int.div` is T-division, matching CPython's `int()` on a float). -/
def ratTrunc (q : ℚ) : Int :=
  Int.tdiv q.num (q.den : Int)

/-- Mean (`np.mean`) of a list of integers, as an exact rational. -/
def meanQ (l : List Int) : ℚ :=
  ((l.sum : Int) : ℚ) / (l.length : ℚ)

/-- Bounded-deque append with capacity `cap`: keep the most recent `cap` entries. -/
def appendBounded (cap : Nat) (xs : List (Int × Int)) (p : Int × Int) :
    List (Int × Int) :=
  let ys := xs ++ [p]
  ys.drop (ys.length - cap)

/-- Embeds `VehicleTracker.get_center`: integer midpoint of a bounding box. -/
def get_center (b : Box) : Int × Int :=
  (ratTrunc ((b.x1 + b.x2) / 2), ratTrunc ((b.y1 + b.y2) / 2))

/-- Per-vehicle track state (`class VehicleTracker`). -/
structure VehicleTracker where
  track_id : Nat
  category : Category
  confidence : ℚ
  positions : List (Int × Int)
  bbox : Box
  counted : Bool
  direction : Option Event
  crossed_line : Bool
  last_seen : Int
deriving DecidableEq, Repr

namespace VehicleTracker

/-- Embeds the `VehicleTracker` constructor: fresh track from a detection at time `now`. -/
def init (tid : Nat) (det : Detection) (now : Int) : VehicleTracker where
  track_id := tid
  category := det.display_category
  confidence := det.confidence
  positions := [get_center det.bbox]
  bbox := det.bbox
  counted := false
  direction := none
  crossed_line := false
  last_seen := now

/-- Embeds `VehicleTracker.update` followed by the confidence overwrite performed by
`VehicleCounter.update` on a matched track: replace the bbox, append the new
center to the bounded history, refresh `last_seen`, overwrite `confidence`. -/
def applyDet (now : Int) (det : Detection) (t : VehicleTracker) : VehicleTracker :=
  { t with
    bbox := det.bbox
    positions := appendBounded 30 t.positions (get_center det.bbox)
    last_seen := now
    confidence := det.confidence }

/-- Embeds `VehicleTracker.get_trajectory_direction`: `None` below 5 samples or when
the 5-sample average displacement is at most 30 px; otherwise the sign of the
displacement. -/
def get_trajectory_direction (t : VehicleTracker) : Option Dir :=
  if t.positions.length < 5 then none
  else
    let start_x := meanQ ((t.positions.take 5).map Prod.fst)
    let end_x := meanQ ((t.positions.drop (t.positions.length - 5)).map Prod.fst)
    let displacement := end_x - start_x
    if 30 < |displacement| then
      some (if 0 < displacement then .RIGHT else .LEFT)
    else none

/-- Embeds `VehicleTracker.is_stale`: strictly older than `maxAge` seconds. -/
def is_stale (now maxAge : Int) (t : VehicleTracker) : Bool :=
  decide (maxAge < now - t.last_seen)

end VehicleTracker

/-- The displacement that `get_trajectory_direction` computes: mean of the
latest five x-coordinates minus mean of the earliest five. -/
def trajectoryDisplacement (t : VehicleTracker) : ℚ :=
  meanQ ((t.positions.drop (t.positions.length - 5)).map Prod.fst) -
    meanQ ((t.positions.take 5).map Prod.fst)

/-- Embeds `VehicleCounter.calculate_iou`: intersection over union of two boxes,
`0` when the union area is not positive. -/
def calculate_iou (box1 box2 : Box) : ℚ :=
  let inter_x_min := max box1.x1 box2.x1
  let inter_y_min := max box1.y1 box2.y1
  let inter_x_max := min box1.x2 box2.x2
  let inter_y_max := min box1.y2 box2.y2
  let inter_area := max 0 (inter_x_max - inter_x_min) * max 0 (inter_y_max - inter_y_min)
  let box1_area := (box1.x2 - box1.x1) * (box1.y2 - box1.y1)
  let box2_area := (box2.x2 - box2.x1) * (box2.y2 - box2.y1)
  let union_area := box1_area + box2_area - inter_area
  if 0 < union_area then inter_area / union_area else 0

/-- Embeds `VehicleCounter.check_line_crossing`: the last two recorded positions
straddle the line (inclusive on the new side); `false` below 2 samples. -/
def check_line_crossing (positions : List (Int × Int)) (line_x : Int) : Bool :=
  match positions.reverse with
  | curr :: prev :: _ =>
      decide ((prev.1 < line_x ∧ line_x ≤ curr.1) ∨ (line_x < prev.1 ∧ curr.1 ≤ line_x))
  | _ => false

/-- Association-list lookup with decidable equality on the key
(first occurrence wins, like a Python dict with distinct keys). -/
def alookup (k : Nat) : List (Nat × VehicleTracker) → Option VehicleTracker
  | [] => none
  | (k', v) :: rest => if k' = k then some v else alookup k rest

/-- Pointwise update of the association list at key `k`
(`self.trackers[track_id] = ...` on an existing key). -/
def assocUpdate (k : Nat) (f : VehicleTracker → VehicleTracker)
    (l : List (Nat × VehicleTracker)) : List (Nat × VehicleTracker) :=
  l.map fun p => if p.1 = k then (p.1, f p.2) else p

/-- One matched association produced during
`VehicleCounter.match_detections_to_trackers`: detection index `d`, the
detection itself, the tracker's position `t` in the dict's iteration order,
and the matched track id `tid`. -/
structure MatchEntry where
  d : Nat
  det : Detection
  t : Nat
  tid : Nat
deriving DecidableEq, Repr

/-- The IoU row of the matrix for one detection: for each tracker, its
iteration index `t`, its track id, and `IoU(det.bbox, tracker.bbox)`. -/
def detIous (trackers : List (Nat × VehicleTracker)) (det : Detection) :
    List (Nat × Nat × ℚ) :=
  trackers.enum.map fun p => (p.1, p.2.1, calculate_iou det.bbox p.2.2.bbox)

/-- Inner greedy loop of `match_detections_to_trackers`: scan the IoU row,
skipping already-claimed tracker indices, keeping the strictly best IoU seen
so far (initialised to the 0.3 threshold, index `none`). -/
def findBest (claimed : List Nat) :
    List (Nat × Nat × ℚ) → ℚ → Option (Nat × Nat) → Option (Nat × Nat)
  | [], _, best => best
  | (t, tid, q) :: rest, bq, best =>
    if t ∈ claimed then findBest claimed rest bq best
    else if bq < q then findBest claimed rest q (some (t, tid))
    else findBest claimed rest bq best

/-- Outer greedy loop of `match_detections_to_trackers`: process detections
in input order starting at index `d`, accumulating claimed tracker indices;
returns matched entries and the unmatched `(index, detection)` pairs. -/
def matchGo (trackers : List (Nat × VehicleTracker)) :
    Nat → List Detection → List Nat → List MatchEntry × List (Nat × Detection)
  | _, [], _ => ([], [])
  | d, det :: rest, claimed =>
    match findBest claimed (detIous trackers det) (3/10) none with
    | some (t, tid) =>
      let r := matchGo trackers (d + 1) rest (t :: claimed)
      (⟨d, det, t, tid⟩ :: r.1, r.2)
    | none =>
      let r := matchGo trackers (d + 1) rest claimed
      (r.1, (d, det) :: r.2)

/-- Embeds `VehicleCounter.match_detections_to_trackers`, keeping the full match
entries and the unmatched detections alongside their indices. -/
def matchFull (trackers : List (Nat × VehicleTracker)) (detections : List Detection) :
    List MatchEntry × List (Nat × Detection) :=
  if trackers.length = 0 then ([], detections.enum)
  else if detections.length = 0 then ([], [])
  else matchGo trackers 0 detections []

/-- Embeds `VehicleCounter.match_detections_to_trackers` exactly as returned by the
code: the detection-index-to-track-id map (as an ordered list of pairs) and
the list of unmatched detection indices. -/
def match_detections_to_trackers (trackers : List (Nat × VehicleTracker))
    (detections : List Detection) : List (Nat × Nat) × List Nat :=
  ((matchFull trackers detections).1.map fun e => (e.d, e.tid),
   (matchFull trackers detections).2.map Prod.fst)

/-- Tracker index `x` is claimed before detection index `i` in a pass that
started with `claimed` already claimed and produced matched entries `m`. -/
def claimedB (claimed : List Nat) (m : List MatchEntry) (i : Nat) (x : Nat) : Prop :=
  x ∈ claimed ∨ ∃ e ∈ m, e.d < i ∧ e.t = x

/-- Aggregate counter state of `class VehicleCounter`.  `max_distance` and
`max_age` are set in `__init__` and never modified; `max_age` appears as the
constant `VehicleCounter.maxAge` below. -/
structure CounterState where
  line_position : ℚ
  direction_mapping : Dir → Option Event
  trackers : List (Nat × VehicleTracker)
  next_track_id : Nat
  counts : Event → Category → Nat
  total_counts : Event → Nat

/-- Configuration errors (the spec's construction-time validation taxonomy). -/
inductive ConfigError where
  | invalidLinePosition
deriving DecidableEq, Repr

namespace VehicleCounter

/-- The staleness bound `self.max_age = 2` seconds, set in the constructor, never mutated. -/
def maxAge : Int := 2

/-- Default `direction_mapping`: LEFT maps to OUT and RIGHT maps to IN. -/
def defaultDirectionMapping : Dir → Option Event
  | .LEFT => some .OUT
  | .RIGHT => some .IN

/-- Embeds the `VehicleCounter` constructor: store the configuration, no trackers,
next id 1, all counters zero. -/
def init (lp : ℚ) (dm : Dir → Option Event) : CounterState where
  line_position := lp
  direction_mapping := dm
  trackers := []
  next_track_id := 1
  counts := fun _ _ => 0
  total_counts := fun _ => 0

/-- The `VehicleCounter` constructor as fallible construction: the constructor body
contains no validation and no `raise`, so it always returns `Except.ok`. -/
def initE (lp : ℚ) (dm : Dir → Option Event) : Except ConfigError CounterState :=
  .ok (init lp dm)

/-- Embeds `VehicleCounter.reset_counts`: zero every counter, touch nothing else. -/
def reset_counts (s : CounterState) : CounterState :=
  { s with counts := fun _ _ => 0, total_counts := fun _ => 0 }

/-- Increment `counts[ev][cat]`. -/
def bumpCounts (f : Event → Category → Nat) (ev : Event) (cat : Category) :
    Event → Category → Nat :=
  fun e c => if e = ev then (if c = cat then f e c + 1 else f e c) else f e c

/-- Increment `total_counts[ev]`. -/
def bumpTotal (f : Event → Nat) (ev : Event) : Event → Nat :=
  fun e => if e = ev then f e + 1 else f e

/-- The body of the per-track crossing-and-eviction loop in
`VehicleCounter.update`:
`none` means the track is stale and is removed without crossing evaluation
(the `continue`); otherwise returns the possibly-counted track together with
the `(event, category)` increment it emits, if any. -/
def processTrack (now line_x : Int) (dm : Dir → Option Event)
    (tr : VehicleTracker) : Option (VehicleTracker × Option (Event × Category)) :=
  if tr.is_stale now maxAge then none
  else if tr.counted = false ∧ check_line_crossing tr.positions line_x then
    match tr.get_trajectory_direction with
    | some dir =>
      match dm dir with
      | some ev =>
        some ({ tr with direction := some ev, counted := true, crossed_line := true },
              some (ev, tr.category))
      | none => some (tr, none)
    | none => some (tr, none)
  else some (tr, none)

/-- Apply the matched updates of one frame to the tracker dict. -/
def applyMatched (now : Int) (ms : List MatchEntry)
    (l : List (Nat × VehicleTracker)) : List (Nat × VehicleTracker) :=
  ms.foldl (fun acc e => assocUpdate e.tid (VehicleTracker.applyDet now e.det) acc) l

/-- Create fresh trackers for the unmatched detections of one frame,
assigning sequential ids starting at `nid`. -/
def createNew (now : Int) : List (Nat × Detection) → Nat →
    List (Nat × VehicleTracker) × Nat
  | [], nid => ([], nid)
  | p :: rest, nid =>
    let r := createNew now rest (nid + 1)
    ((nid, VehicleTracker.init nid p.2 now) :: r.1, r.2)

/-- Embeds `VehicleCounter.update`: match detections to trackers, apply matched
updates, create trackers for unmatched detections, then run the per-track
crossing/eviction loop and fold the emitted count increments. -/
def update (s : CounterState) (detections : List Detection)
    (frame_width : Int) (now : Int) : CounterState :=
  let line_x := ratTrunc ((frame_width : ℚ) * s.line_position)
  let mu := matchFull s.trackers detections
  let trackers1 := applyMatched now mu.1 s.trackers
  let created := createNew now mu.2 s.next_track_id
  let trackers2 := trackers1 ++ created.1
  let inc := trackers2.filterMap fun p =>
    (processTrack now line_x s.direction_mapping p.2).bind Prod.snd
  let kept := trackers2.filterMap fun p =>
    (processTrack now line_x s.direction_mapping p.2).map fun r => (p.1, r.1)
  { s with
    trackers := kept
    next_track_id := created.2
    counts := inc.foldl (fun f e => bumpCounts f e.1 e.2) s.counts
    total_counts := inc.foldl (fun f e => bumpTotal f e.1) s.total_counts }

/-- A sequence of `update` calls: each frame is
`(detections, frame_width, now)`. -/
def runUpdates (s : CounterState) : List (List Detection × Int × Int) → CounterState
  | [] => s
  | f :: rest => runUpdates (update s f.1 f.2.1 f.2.2) rest

/-- The parking-availability snapshot returned by
`VehicleCounter.get_parking_availability`. -/
structure ParkingAvailability where
  total_capacity : Int
  cars_in : Nat
  cars_out : Nat
  currently_parked : Int
  available : Int
  occupancy_percent : ℚ
deriving DecidableEq, Repr

/-- Embeds `VehicleCounter.get_parking_availability`. -/
def get_parking_availability (s : CounterState) (total_capacity : Int) :
    ParkingAvailability :=
  let cars_in := s.counts .IN .Car
  let cars_out := s.counts .OUT .Car
  let net_cars : Int := (cars_in : Int) - (cars_out : Int)
  { total_capacity := total_capacity
    cars_in := cars_in
    cars_out := cars_out
    currently_parked := net_cars
    available := max 0 (total_capacity - net_cars)
    occupancy_percent :=
      if 0 < total_capacity then (net_cars : ℚ) / (total_capacity : ℚ) * 100 else 0 }

/-- The counting-line pixel column used by one `update` call. -/
def lineX (s : CounterState) (w : Int) : Int :=
  ratTrunc ((w : ℚ) * s.line_position)

/-- The tracker dict after the matched-update and creation phases of one
`update` call, before the crossing/eviction loop. -/
def stage2 (s : CounterState) (dets : List Detection) (now : Int) :
    List (Nat × VehicleTracker) :=
  applyMatched now (matchFull s.trackers dets).1 s.trackers ++
    (createNew now (matchFull s.trackers dets).2 s.next_track_id).1

/-- The `(event, category)` increments emitted by one `update` call. -/
def increments (s : CounterState) (dets : List Detection) (w now : Int) :
    List (Event × Category) :=
  (stage2 s dets now).filterMap fun p =>
    (processTrack now (lineX s w) s.direction_mapping p.2).bind Prod.snd

/-- The tracker dict representation invariant: keys are distinct (a Python
dict) and every key was assigned from the id counter, hence below
`next_track_id`. -/
def WF (s : CounterState) : Prop :=
  (s.trackers.map Prod.fst).Nodup ∧
    ∀ k ∈ s.trackers.map Prod.fst, k < s.next_track_id

/-- Count conservation: each grand total equals the sum of its per-category
counts. -/
def CountInvariant (s : CounterState) : Prop :=
  ∀ e, s.total_counts e = ∑ c : Category, s.counts e c

end VehicleCounter

/-! ## Association-list toolkit -/

/-! ## Concrete example states used by witnesses and counterexamples -/

/-- A box with positive area (center x = 200). -/
def exBox : Box := ⟨150, 0, 250, 20⟩

/-- A detection carrying `exBox`. -/
def exDet : Detection := ⟨exBox, Category.Car, 9/10⟩

/-- An uncounted track whose history sits left of the line, last seen at 0. -/
def exTrack : VehicleTracker where
  track_id := 1
  category := Category.Car
  confidence := 1
  positions := [(0, 0), (0, 0), (0, 0), (0, 0), (0, 0), (0, 0), (0, 0), (0, 0)]
  bbox := exBox
  counted := false
  direction := none
  crossed_line := false
  last_seen := 0

/-- An uncounted track whose last two positions already straddle x = 50,
with a resolvable rightward trajectory. -/
def exCrossedTrack : VehicleTracker :=
  { exTrack with positions := [(0, 0), (0, 0), (0, 0), (0, 0), (0, 0), (200, 0)] }

/-- A counted track. -/
def exCountedTrack : VehicleTracker :=
  { exTrack with
    positions := [(0, 0)]
    counted := true
    direction := some Event.IN
    crossed_line := true }

/-- Counter state holding the uncounted track `exTrack`. -/
def exState : CounterState where
  line_position := 1/2
  direction_mapping := VehicleCounter.defaultDirectionMapping
  trackers := [(1, exTrack)]
  next_track_id := 2
  counts := fun _ _ => 0
  total_counts := fun _ => 0

/-- Counter state holding the already-crossed uncounted track. -/
def exCrossedState : CounterState := { exState with trackers := [(1, exCrossedTrack)] }

/-- Counter state holding a counted track and nonzero counters. -/
def exCountedState : CounterState :=
  { exState with
    trackers := [(1, exCountedTrack)]
    counts := fun e c => if e = Event.IN ∧ c = Category.Car then 1 else 0
    total_counts := fun e => if e = Event.IN then 1 else 0 }

/-- Counter state with car counts 12 in / 3 out for the parking scenario. -/
def exParkingState : CounterState :=
  { exState with
    trackers := []
    counts := fun e c =>
      if e = Event.IN ∧ c = Category.Car then 12
      else if e = Event.OUT ∧ c = Category.Car then 3 else 0
    total_counts := fun e => if e = Event.IN then 12 else 3 }

theorem alookup_nil (k : Nat) : alookup k [] = none := rfl

theorem alookup_cons (k k' : Nat) (v : VehicleTracker) (l : List (Nat × VehicleTracker)) :
    alookup k ((k', v) :: l) = if k' = k then some v else alookup k l := rfl

theorem alookup_append (k : Nat) (l r : List (Nat × VehicleTracker)) :
    alookup k (l ++ r) = (alookup k l).orElse (fun _ => alookup k r) := by
  induction l with
  | nil => rfl
  | cons p rest ih =>
    obtain ⟨k', v⟩ := p
    by_cases h : k' = k <;> simp [alookup_cons, h, ih]

theorem alookup_eq_none_iff (k : Nat) (l : List (Nat × VehicleTracker)) :
    alookup k l = none ↔ k ∉ l.map Prod.fst := by
  induction l with
  | nil => simp [alookup_nil]
  | cons p rest ih =>
    obtain ⟨k', v⟩ := p
    by_cases h : k' = k <;> simp [alookup_cons, h, ih] <;> tauto

theorem alookup_isSome_of_mem {k : Nat} {v : VehicleTracker}
    {l : List (Nat × VehicleTracker)} (h : (k, v) ∈ l) : (alookup k l).isSome := by
  induction l with
  | nil => simp at h
  | cons p rest ih =>
    obtain ⟨k', v'⟩ := p
    rcases List.mem_cons.mp h with h1 | h2
    · obtain ⟨rfl, rfl⟩ := Prod.mk.injEq .. ▸ h1; simp [alookup_cons]
    · by_cases hk : k' = k <;> simp [alookup_cons, hk, ih h2]

theorem alookup_mem {k : Nat} {v : VehicleTracker} {l : List (Nat × VehicleTracker)}
    (h : alookup k l = some v) : (k, v) ∈ l := by
  induction l with
  | nil => simp [alookup_nil] at h
  | cons p rest ih =>
    obtain ⟨k', v'⟩ := p
    by_cases hk : k' = k
    · subst hk
      simp [alookup_cons] at h
      simp [h]
    · simp [alookup_cons, hk] at h
      exact List.mem_cons_of_mem _ (ih h)

theorem assocUpdate_keys (k : Nat) (f : VehicleTracker → VehicleTracker)
    (l : List (Nat × VehicleTracker)) :
    (assocUpdate k f l).map Prod.fst = l.map Prod.fst := by
  induction l with
  | nil => rfl
  | cons p rest ih =>
    by_cases h : p.1 = k <;> simp [assocUpdate, h] <;>
      simpa [assocUpdate] using ih

theorem alookup_assocUpdate_self (k : Nat) (f : VehicleTracker → VehicleTracker)
    (l : List (Nat × VehicleTracker)) :
    alookup k (assocUpdate k f l) = (alookup k l).map f := by
  induction l with
  | nil => rfl
  | cons p rest ih =>
    obtain ⟨k', v⟩ := p
    by_cases h : k' = k <;> simp [assocUpdate, alookup_cons, h] at ih ⊢ <;>
      simpa [assocUpdate] using ih

theorem alookup_assocUpdate_ne (k k' : Nat) (hne : k' ≠ k)
    (f : VehicleTracker → VehicleTracker) (l : List (Nat × VehicleTracker)) :
    alookup k' (assocUpdate k f l) = alookup k' l := by
  induction l with
  | nil => rfl
  | cons p rest ih =>
    obtain ⟨k'', v⟩ := p
    by_cases h : k'' = k
    · subst h
      have : ¬(k'' = k') := fun hc => hne hc.symm
      simp [assocUpdate, alookup_cons, this] at ih ⊢
      simpa [assocUpdate] using ih
    · by_cases h2 : k'' = k'
      · subst h2
        simp [assocUpdate, alookup_cons, h]
      · simp [assocUpdate, alookup_cons, h, h2] at ih ⊢
        simpa [assocUpdate] using ih

theorem filterMap_keys_subset (h : VehicleTracker → Option VehicleTracker)
    (l : List (Nat × VehicleTracker)) :
    ((l.filterMap fun p => (h p.2).map fun r => (p.1, r)).map Prod.fst) ⊆ l.map Prod.fst := by
  intro k hk
  simp only [List.mem_map, List.mem_filterMap] at hk
  obtain ⟨⟨k', v'⟩, ⟨⟨k'', v''⟩, hmem, hmap⟩, rfl⟩ := hk
  cases hv : h v'' with
  | none => simp [hv] at hmap
  | some r =>
    simp [hv] at hmap
    obtain ⟨rfl, rfl⟩ := hmap
    exact List.mem_map.mpr ⟨_, hmem, rfl⟩

theorem alookup_filterMap (h : VehicleTracker → Option VehicleTracker)
    (k : Nat) (l : List (Nat × VehicleTracker)) (hn : (l.map Prod.fst).Nodup) :
    alookup k (l.filterMap fun p => (h p.2).map fun r => (p.1, r)) =
      (alookup k l).bind h := by
  induction l with
  | nil => rfl
  | cons p rest ih =>
    obtain ⟨k', v⟩ := p
    simp only [List.map_cons, List.nodup_cons] at hn
    obtain ⟨hk', hrest⟩ := hn
    by_cases hkk : k' = k
    · subst hkk
      cases hv : h v with
      | none =>
        have h1 : alookup k' (rest.filterMap fun p => (h p.2).map fun r => (p.1, r)) = none :=
          (alookup_eq_none_iff _ _).mpr fun hc => hk' (filterMap_keys_subset h rest hc)
        simp [List.filterMap_cons, hv, alookup_cons, h1]
      | some r =>
        simp [List.filterMap_cons, hv, alookup_cons]
    · cases hv : h v with
      | none => simp [List.filterMap_cons, hv, alookup_cons, hkk, ih hrest]
      | some r => simp [List.filterMap_cons, hv, alookup_cons, hkk, ih hrest]

namespace VehicleCounter

/-! ## Matched-update phase -/

theorem applyMatched_nil (now : Int) (l : List (Nat × VehicleTracker)) :
    applyMatched now [] l = l := rfl

theorem applyMatched_cons (now : Int) (e : MatchEntry) (ms : List MatchEntry)
    (l : List (Nat × VehicleTracker)) :
    applyMatched now (e :: ms) l =
      applyMatched now ms (assocUpdate e.tid (VehicleTracker.applyDet now e.det) l) := rfl

theorem applyMatched_keys (now : Int) (ms : List MatchEntry)
    (l : List (Nat × VehicleTracker)) :
    (applyMatched now ms l).map Prod.fst = l.map Prod.fst := by
  induction ms generalizing l with
  | nil => rfl
  | cons e rest ih => simp [applyMatched] at ih ⊢; rw [ih, assocUpdate_keys]

theorem alookup_applyMatched_notmem (now : Int) (ms : List MatchEntry)
    (l : List (Nat × VehicleTracker)) (tid : Nat)
    (h : ∀ e ∈ ms, e.tid ≠ tid) :
    alookup tid (applyMatched now ms l) = alookup tid l := by
  induction ms generalizing l with
  | nil => rfl
  | cons e rest ih =>
    rw [applyMatched_cons, ih _ fun e' he' => h e' (List.mem_cons_of_mem _ he'),
      alookup_assocUpdate_ne _ _ (fun hc => h e (List.mem_cons_self _ _) hc.symm)]

theorem alookup_applyMatched_mem (now : Int) (ms : List MatchEntry)
    (l : List (Nat × VehicleTracker)) (e : MatchEntry)
    (hmem : e ∈ ms) (hnd : (ms.map MatchEntry.tid).Nodup) :
    alookup e.tid (applyMatched now ms l) =
      (alookup e.tid l).map (VehicleTracker.applyDet now e.det) := by
  induction ms generalizing l with
  | nil => simp at hmem
  | cons e₀ rest ih =>
    simp only [List.map_cons, List.nodup_cons] at hnd
    obtain ⟨h₀, hrest⟩ := hnd
    rcases List.mem_cons.mp hmem with rfl | hmem'
    · rw [applyMatched_cons,
        alookup_applyMatched_notmem _ _ _ _
          (fun e' he' hc => h₀ (by rw [← hc]; exact List.mem_map.mpr ⟨e', he', rfl⟩)),
        alookup_assocUpdate_self]
    · rw [applyMatched_cons, ih _ hmem' hrest,
        alookup_assocUpdate_ne _ _
          (fun hc => h₀ (by rw [← hc]; exact List.mem_map.mpr ⟨e, hmem', rfl⟩))]

/-! ## Creation phase -/

theorem createNew_snd (now : Int) (um : List (Nat × Detection)) (nid : Nat) :
    (createNew now um nid).2 = nid + um.length := by
  induction um generalizing nid with
  | nil => simp [createNew]
  | cons p rest ih => simp [createNew, ih]; omega

theorem createNew_keys (now : Int) (um : List (Nat × Detection)) (nid : Nat) :
    (createNew now um nid).1.map Prod.fst = List.range' nid um.length := by
  induction um generalizing nid with
  | nil => simp [createNew]
  | cons p rest ih =>
    simp [createNew, ih, List.range'_succ]

theorem createNew_mem (now : Int) (um : List (Nat × Detection)) (nid : Nat)
    {q : Nat × VehicleTracker} (h : q ∈ (createNew now um nid).1) :
    nid ≤ q.1 ∧ ∃ p ∈ um, q.2 = VehicleTracker.init q.1 p.2 now := by
  induction um generalizing nid with
  | nil => simp [createNew] at h
  | cons p rest ih =>
    simp only [createNew, List.mem_cons] at h
    rcases h with rfl | h'
    · exact ⟨le_refl _, p, List.mem_cons_self _ _, rfl⟩
    · obtain ⟨h1, p', hp', h2⟩ := ih _ h'
      exact ⟨by omega, p', List.mem_cons_of_mem _ hp', h2⟩

end VehicleCounter

namespace VehicleCounter

/-! ## Decomposition of `update` into stages -/

theorem update_trackers (s : CounterState) (dets : List Detection) (w now : Int) :
    (update s dets w now).trackers =
      (stage2 s dets now).filterMap fun p =>
        (processTrack now (lineX s w) s.direction_mapping p.2).map fun r => (p.1, r.1) := rfl

theorem update_next_track_id (s : CounterState) (dets : List Detection) (w now : Int) :
    (update s dets w now).next_track_id =
      s.next_track_id + (matchFull s.trackers dets).2.length := by
  show (createNew now (matchFull s.trackers dets).2 s.next_track_id).2 = _
  exact createNew_snd ..

theorem update_counts (s : CounterState) (dets : List Detection) (w now : Int) :
    (update s dets w now).counts =
      (increments s dets w now).foldl (fun f e => bumpCounts f e.1 e.2) s.counts := rfl

theorem update_total_counts (s : CounterState) (dets : List Detection) (w now : Int) :
    (update s dets w now).total_counts =
      (increments s dets w now).foldl (fun f e => bumpTotal f e.1) s.total_counts := rfl

theorem update_line_position (s : CounterState) (dets : List Detection) (w now : Int) :
    (update s dets w now).line_position = s.line_position := rfl

theorem update_direction_mapping (s : CounterState) (dets : List Detection) (w now : Int) :
    (update s dets w now).direction_mapping = s.direction_mapping := rfl

/-- The crossing/eviction loop writes tracker pairs through a key-preserving
`Option.map`, so it is an instance of the generic `filterMap` shape. -/
theorem kept_eq (now lx : Int) (dm : Dir → Option Event)
    (l : List (Nat × VehicleTracker)) :
    (l.filterMap fun p => (processTrack now lx dm p.2).map fun r => (p.1, r.1)) =
      l.filterMap fun p =>
        ((fun tr => (processTrack now lx dm tr).map Prod.fst) p.2).map fun r => (p.1, r) := by
  congr 1
  funext p
  rw [Option.map_map]
  rfl

/-! ## `processTrack` case analysis -/

theorem processTrack_eq_none_iff (now lx : Int) (dm : Dir → Option Event)
    (tr : VehicleTracker) :
    processTrack now lx dm tr = none ↔ tr.is_stale now maxAge = true := by
  unfold processTrack
  split_ifs with h1 h2
  · simp [h1]
  · cases hd : tr.get_trajectory_direction with
    | none => simp [h1, hd]
    | some dir => cases hdm : dm dir <;> simp [h1, hd, hdm]
  · simp [h1]

theorem processTrack_cases (now lx : Int) (dm : Dir → Option Event)
    (tr tr' : VehicleTracker) (inc : Option (Event × Category))
    (h : processTrack now lx dm tr = some (tr', inc)) :
    (tr' = tr ∧ inc = none) ∨
      (tr.counted = false ∧ check_line_crossing tr.positions lx = true ∧
        ∃ dir ev, tr.get_trajectory_direction = some dir ∧ dm dir = some ev ∧
          tr' = { tr with direction := some ev, counted := true, crossed_line := true } ∧
          inc = some (ev, tr.category)) := by
  unfold processTrack at h
  split_ifs at h with h1 h2
  · cases hd : tr.get_trajectory_direction with
    | none => simp [hd] at h; exact Or.inl ⟨h.1.symm, h.2.symm⟩
    | some dir =>
      cases hdm : dm dir with
      | none => simp [hd, hdm] at h; exact Or.inl ⟨h.1.symm, h.2.symm⟩
      | some ev =>
        simp [hd, hdm] at h
        exact Or.inr ⟨h2.1, h2.2, dir, ev, rfl, hdm, h.1.symm, h.2.symm⟩
  · simp at h; exact Or.inl ⟨h.1.symm, h.2.symm⟩

theorem processTrack_of_counted (now lx : Int) (dm : Dir → Option Event)
    (tr : VehicleTracker) (hc : tr.counted = true) :
    processTrack now lx dm tr = none ∨ processTrack now lx dm tr = some (tr, none) := by
  cases h : processTrack now lx dm tr with
  | none => exact Or.inl rfl
  | some r =>
    obtain ⟨tr', inc⟩ := r
    rcases processTrack_cases now lx dm tr tr' inc h with ⟨rfl, rfl⟩ | ⟨hf, _⟩
    · exact Or.inr rfl
    · rw [hc] at hf; cases hf

theorem processTrack_not_stale (now lx : Int) (dm : Dir → Option Event)
    (tr : VehicleTracker) (h : tr.is_stale now maxAge = false) :
    ∃ r, processTrack now lx dm tr = some r := by
  cases hp : processTrack now lx dm tr with
  | none => rw [processTrack_eq_none_iff] at hp; rw [hp] at h; cases h
  | some r => exact ⟨r, rfl⟩

end VehicleCounter

theorem filterMap_keys_sublist (h : VehicleTracker → Option VehicleTracker)
    (l : List (Nat × VehicleTracker)) :
    ((l.filterMap fun p => (h p.2).map fun r => (p.1, r)).map Prod.fst).Sublist
      (l.map Prod.fst) := by
  induction l with
  | nil => simp
  | cons p rest ih =>
    cases hv : h p.2 with
    | none =>
      simp only [List.filterMap_cons, hv, Option.map_none', List.map_cons]
      exact ih.cons _
    | some r =>
      simp only [List.filterMap_cons, hv, Option.map_some', List.map_cons]
      exact ih.cons₂ _

namespace VehicleCounter

/-- Keys surviving the crossing/eviction loop form a sublist of the keys
entering it. -/
theorem kept_keys_sublist (now lx : Int) (dm : Dir → Option Event)
    (l : List (Nat × VehicleTracker)) :
    ((l.filterMap fun p => (processTrack now lx dm p.2).map fun r => (p.1, r.1)).map
      Prod.fst).Sublist (l.map Prod.fst) := by
  rw [kept_eq]
  exact filterMap_keys_sublist (fun tr => (processTrack now lx dm tr).map Prod.fst) l

/-- Lookup through the crossing/eviction loop. -/
theorem alookup_kept (now lx : Int) (dm : Dir → Option Event)
    (l : List (Nat × VehicleTracker)) (hn : (l.map Prod.fst).Nodup) (k : Nat) :
    alookup k (l.filterMap fun p => (processTrack now lx dm p.2).map fun r => (p.1, r.1)) =
      (alookup k l).bind fun tr => (processTrack now lx dm tr).map Prod.fst := by
  rw [kept_eq]
  exact alookup_filterMap (fun tr => (processTrack now lx dm tr).map Prod.fst) k l hn

theorem stage2_keys (s : CounterState) (dets : List Detection) (now : Int) :
    (stage2 s dets now).map Prod.fst =
      s.trackers.map Prod.fst ++
        List.range' s.next_track_id (matchFull s.trackers dets).2.length := by
  simp [stage2, applyMatched_keys, createNew_keys]

theorem stage2_keys_nodup (s : CounterState) (dets : List Detection) (now : Int)
    (hWF : WF s) : ((stage2 s dets now).map Prod.fst).Nodup := by
  rw [stage2_keys]
  refine List.Nodup.append hWF.1 (List.nodup_range' _ _) ?_
  intro k hk hk'
  have h1 := hWF.2 k hk
  have h2 := (List.mem_range'_1.mp hk').1
  omega

theorem WF_update (s : CounterState) (dets : List Detection) (w now : Int)
    (hWF : WF s) : WF (update s dets w now) := by
  constructor
  · rw [update_trackers]
    exact (kept_keys_sublist _ _ _ _).nodup (stage2_keys_nodup s dets now hWF)
  · intro k hk
    rw [update_trackers] at hk
    have hk2 : k ∈ (stage2 s dets now).map Prod.fst :=
      (kept_keys_sublist _ _ _ _).subset hk
    rw [stage2_keys] at hk2
    rw [update_next_track_id]
    rcases List.mem_append.mp hk2 with h1 | h2
    · have := hWF.2 k h1; omega
    · have := List.mem_range'_1.mp h2; omega

/-- The fold `applyMatched` transforms each stored track by a (possibly empty) chain of
`applyDet` steps, so any property preserved by `applyDet` is preserved. -/
theorem alookup_applyMatched_pres (P : VehicleTracker → Prop)
    (hP : ∀ now det t, P t → P (VehicleTracker.applyDet now det t))
    (now : Int) (ms : List MatchEntry) (l : List (Nat × VehicleTracker))
    (tid : Nat) (tr : VehicleTracker)
    (hl : alookup tid l = some tr) (hpre : P tr) :
    ∀ tr', alookup tid (applyMatched now ms l) = some tr' → P tr' := by
  induction ms generalizing l tr with
  | nil => intro tr' h'; rw [applyMatched_nil] at h'; rw [hl] at h'; cases h'; exact hpre
  | cons e rest ih =>
    intro tr' h'
    rw [applyMatched_cons] at h'
    by_cases he : e.tid = tid
    · subst he
      have h2 : alookup e.tid (assocUpdate e.tid (VehicleTracker.applyDet now e.det) l) =
          some (VehicleTracker.applyDet now e.det tr) := by
        rw [alookup_assocUpdate_self, hl]; rfl
      exact ih _ _ h2 (hP _ _ _ hpre) tr' h'
    · have h2 : alookup tid (assocUpdate e.tid (VehicleTracker.applyDet now e.det) l) =
          some tr := by
        rw [alookup_assocUpdate_ne _ _ (fun hc => he hc.symm)]
        · exact hl
      exact ih _ _ h2 hpre tr' h'

/-- Per-update monotonicity of the `counted` flag. -/
theorem counted_mono_update (s : CounterState) (dets : List Detection)
    (w now : Int) (hWF : WF s) (tid : Nat) (tr : VehicleTracker)
    (hl : alookup tid s.trackers = some tr) (hc : tr.counted = true) :
    ∀ tr', alookup tid (update s dets w now).trackers = some tr' →
      tr'.counted = true := by
  intro tr' h'
  rw [update_trackers,
    alookup_kept now (lineX s w) s.direction_mapping _
      (stage2_keys_nodup s dets now hWF)] at h'
  -- the looked-up value in stage2 still has `counted = true`
  have hs2 : ∃ tr₂, alookup tid (stage2 s dets now) = some tr₂ ∧ tr₂.counted = true := by
    unfold stage2
    rw [alookup_append]
    have hiso : (alookup tid (applyMatched now (matchFull s.trackers dets).1 s.trackers)).isSome := by
      cases hx : alookup tid (applyMatched now (matchFull s.trackers dets).1 s.trackers) with
      | none =>
        rw [alookup_eq_none_iff, applyMatched_keys] at hx
        exact absurd (List.mem_map.mpr ⟨(tid, tr), alookup_mem hl, rfl⟩) hx
      | some _ => rfl
    obtain ⟨tr₂, htr₂⟩ := Option.isSome_iff_exists.mp hiso
    refine ⟨tr₂, by simp [htr₂], ?_⟩
    exact alookup_applyMatched_pres (fun t => t.counted = true)
      (fun _ _ _ h => h) now _ s.trackers tid tr hl hc tr₂ htr₂
  obtain ⟨tr₂, htr₂, hc₂⟩ := hs2
  rw [htr₂] at h'
  simp only [Option.some_bind] at h'
  rcases processTrack_of_counted now (lineX s w) s.direction_mapping tr₂ hc₂ with hp | hp <;>
    rw [hp] at h'
  · cases h'
  · cases h'; exact hc₂

/-- Monotonicity of `counted` over any sequence of `update` calls. -/
theorem counted_mono_runUpdates (frames : List (List Detection × Int × Int)) :
    ∀ (s : CounterState), WF s → ∀ (tid : Nat) (tr : VehicleTracker),
      alookup tid s.trackers = some tr → tr.counted = true →
      ∀ tr', alookup tid (runUpdates s frames).trackers = some tr' →
        tr'.counted = true := by
  induction frames with
  | nil =>
    intro s _ tid tr hl hc tr' h'
    simp only [runUpdates] at h'
    rw [hl] at h'; cases h'; exact hc
  | cons f rest ih =>
    intro s hWF tid tr hl hc tr' h'
    simp only [runUpdates] at h'
    cases hx : alookup tid (update s f.1 f.2.1 f.2.2).trackers with
    | none =>
      -- the track was evicted: it can never reappear under this id, since all
      -- later-created tracks get fresh ids; we argue via key membership
      exfalso
      have hkeys : tid ∉ (update s f.1 f.2.1 f.2.2).trackers.map Prod.fst :=
        (alookup_eq_none_iff _ _).mp hx
      -- tid was a live key with tid < next_track_id; after eviction it is gone
      -- and every state reachable from there keeps tid below next_track_id and
      -- outside the live key set
      have hlt : tid < (update s f.1 f.2.1 f.2.2).next_track_id := by
        rw [update_next_track_id]
        have := hWF.2 tid (List.mem_map.mpr ⟨(tid, tr), alookup_mem hl, rfl⟩)
        omega
      have : ∀ (fr : List (List Detection × Int × Int)) (s' : CounterState), WF s' →
          tid ∉ s'.trackers.map Prod.fst → tid < s'.next_track_id →
          alookup tid (runUpdates s' fr).trackers = none := by
        intro fr
        induction fr with
        | nil =>
          intro s' _ hnot _
          simpa [runUpdates, alookup_eq_none_iff] using hnot
        | cons f' rest' ih' =>
          intro s' hWF' hnot hlt'
          simp only [runUpdates]
          refine ih' _ (WF_update _ _ _ _ hWF') ?_ ?_
          · intro hc'
            rw [update_trackers] at hc'
            have hc2 : tid ∈ (stage2 s' f'.1 f'.2.2).map Prod.fst :=
              (kept_keys_sublist _ _ _ _).subset hc'
            rw [stage2_keys] at hc2
            rcases List.mem_append.mp hc2 with h1 | h2
            · exact hnot h1
            · have := List.mem_range'_1.mp h2; omega
          · rw [update_next_track_id]; omega
      rw [this rest _ (WF_update s f.1 f.2.1 f.2.2 hWF) hkeys hlt] at h'
      cases h'
    | some tr₂ =>
      have hc₂ := counted_mono_update s f.1 f.2.1 f.2.2 hWF tid tr hl hc tr₂ hx
      exact ih _ (WF_update s f.1 f.2.1 f.2.2 hWF) tid tr₂ hx hc₂ tr' h'

end VehicleCounter

namespace VehicleCounter

/-! ## Count bookkeeping -/

theorem sum_bumpTotal (g : Event → Nat) (ev : Event) :
    ∑ e : Event, bumpTotal g ev e = (∑ e : Event, g e) + 1 := by
  have h : ∀ e, bumpTotal g ev e = g e + (if e = ev then 1 else 0) := by
    intro e; unfold bumpTotal; split_ifs <;> simp
  simp_rw [h]
  rw [Finset.sum_add_distrib, Finset.sum_ite_eq' Finset.univ ev (fun _ => 1)]
  simp

theorem sum_bumpCounts (f : Event → Category → Nat) (ev : Event) (cat : Category)
    (e : Event) :
    ∑ c : Category, bumpCounts f ev cat e c =
      (∑ c : Category, f e c) + (if e = ev then 1 else 0) := by
  have h : ∀ c, bumpCounts f ev cat e c =
      f e c + (if e = ev then (if c = cat then 1 else 0) else 0) := by
    intro c; unfold bumpCounts; split_ifs <;> simp
  simp_rw [h]
  rw [Finset.sum_add_distrib]
  congr 1
  by_cases he : e = ev
  · simp [he, Finset.sum_ite_eq' Finset.univ cat (fun _ => 1)]
  · simp [he]

theorem foldl_bump_conserves (inc : List (Event × Category)) :
    ∀ (f : Event → Category → Nat) (g : Event → Nat),
      (∀ e, g e = ∑ c : Category, f e c) →
      ∀ e, (inc.foldl (fun f e => bumpTotal f e.1) g) e =
        ∑ c : Category, (inc.foldl (fun f e => bumpCounts f e.1 e.2) f) e c := by
  induction inc with
  | nil => intro f g h e; simpa using h e
  | cons a rest ih =>
    intro f g h e
    simp only [List.foldl_cons]
    refine ih _ _ ?_ e
    intro e'
    rw [sum_bumpCounts]
    unfold bumpTotal
    split_ifs with he <;> simp [he, h e', h a.1]

theorem foldl_bumpTotal_sum (inc : List (Event × Category)) :
    ∀ (g : Event → Nat),
      ∑ e : Event, (inc.foldl (fun f e => bumpTotal f e.1) g) e =
        (∑ e : Event, g e) + inc.length := by
  induction inc with
  | nil => intro g; simp
  | cons a rest ih =>
    intro g
    simp only [List.foldl_cons, ih, sum_bumpTotal, List.length_cons]
    omega

/-- Count conservation is preserved by a single `update`. -/
theorem CountInvariant_update (s : CounterState) (dets : List Detection)
    (w now : Int) (h : CountInvariant s) :
    CountInvariant (update s dets w now) := by
  intro e
  rw [update_counts, update_total_counts]
  exact foldl_bump_conserves (increments s dets w now) s.counts s.total_counts h e

theorem CountInvariant_init (lp : ℚ) (dm : Dir → Option Event) :
    CountInvariant (init lp dm) := by
  intro e; simp [init, CountInvariant]

theorem CountInvariant_reset (s : CounterState) :
    CountInvariant (reset_counts s) := by
  intro e; simp [reset_counts, CountInvariant]

/-- One `update` call adds exactly one unit to the grand totals per emitted
increment. -/
theorem total_sum_update (s : CounterState) (dets : List Detection) (w now : Int) :
    ∑ e : Event, (update s dets w now).total_counts e =
      (∑ e : Event, s.total_counts e) + (increments s dets w now).length := by
  rw [update_total_counts]
  exact foldl_bumpTotal_sum _ _

/-! ## `reset_counts` frame conditions -/

theorem reset_counts_trackers (s : CounterState) :
    (reset_counts s).trackers = s.trackers := rfl

theorem reset_counts_line_position (s : CounterState) :
    (reset_counts s).line_position = s.line_position := rfl

theorem reset_counts_direction_mapping (s : CounterState) :
    (reset_counts s).direction_mapping = s.direction_mapping := rfl

theorem reset_counts_next_track_id (s : CounterState) :
    (reset_counts s).next_track_id = s.next_track_id := rfl

theorem reset_counts_counts (s : CounterState) (e : Event) (c : Category) :
    (reset_counts s).counts e c = 0 := rfl

theorem reset_counts_totals (s : CounterState) (e : Event) :
    (reset_counts s).total_counts e = 0 := rfl

end VehicleCounter

/-! ## Greedy matching: inner loop -/

/-- Full characterization of the inner greedy scan: either no candidate beats
the running threshold and the accumulator is returned unchanged, or the
result is an unclaimed entry of the row that strictly beats the threshold and
is at least as good as every unclaimed entry of the row. -/
theorem findBest_spec (claimed : List Nat) (items : List (Nat × Nat × ℚ)) :
    ∀ (bq : ℚ) (acc : Option (Nat × Nat)),
      (findBest claimed items bq acc = acc ∧
        ∀ x ∈ items, x.1 ∉ claimed → x.2.2 ≤ bq) ∨
      (∃ t tid q, findBest claimed items bq acc = some (t, tid) ∧
        (t, tid, q) ∈ items ∧ t ∉ claimed ∧ bq < q ∧
        ∀ x ∈ items, x.1 ∉ claimed → x.2.2 ≤ q) := by
  induction items with
  | nil => intro bq acc; exact Or.inl ⟨rfl, by simp⟩
  | cons x₀ rest ih =>
    intro bq acc
    obtain ⟨t, tid, q⟩ := x₀
    by_cases hc : t ∈ claimed
    · rcases ih bq acc with ⟨h1, h2⟩ | ⟨t', tid', q', h1, h2, h3, h4, h5⟩
      · refine Or.inl ⟨by simpa [findBest, hc] using h1, ?_⟩
        intro x hx hxc
        rcases List.mem_cons.mp hx with rfl | hx'
        · exact absurd hc hxc
        · exact h2 x hx' hxc
      · refine Or.inr ⟨t', tid', q', by simpa [findBest, hc] using h1,
          List.mem_cons_of_mem _ h2, h3, h4, ?_⟩
        intro x hx hxc
        rcases List.mem_cons.mp hx with rfl | hx'
        · exact absurd hc hxc
        · exact h5 x hx' hxc
    · by_cases himp : bq < q
      · rcases ih q (some (t, tid)) with ⟨h1, h2⟩ | ⟨t', tid', q', h1, h2, h3, h4, h5⟩
        · refine Or.inr ⟨t, tid, q, ?_, List.mem_cons_self _ _, hc, himp, ?_⟩
          · simpa [findBest, hc, himp] using h1
          · intro x hx hxc
            rcases List.mem_cons.mp hx with rfl | hx'
            · exact le_refl _
            · exact h2 x hx' hxc
        · refine Or.inr ⟨t', tid', q', ?_, List.mem_cons_of_mem _ h2, h3,
            lt_trans himp h4, ?_⟩
          · simpa [findBest, hc, himp] using h1
          · intro x hx hxc
            rcases List.mem_cons.mp hx with rfl | hx'
            · exact le_of_lt h4
            · exact h5 x hx' hxc
      · rcases ih bq acc with ⟨h1, h2⟩ | ⟨t', tid', q', h1, h2, h3, h4, h5⟩
        · refine Or.inl ⟨by simpa [findBest, hc, himp] using h1, ?_⟩
          intro x hx hxc
          rcases List.mem_cons.mp hx with rfl | hx'
          · exact le_of_not_lt himp
          · exact h2 x hx' hxc
        · refine Or.inr ⟨t', tid', q', by simpa [findBest, hc, himp] using h1,
            List.mem_cons_of_mem _ h2, h3, h4, ?_⟩
          intro x hx hxc
          rcases List.mem_cons.mp hx with rfl | hx'
          · exact le_trans (le_of_not_lt himp) (le_of_lt h4)
          · exact h5 x hx' hxc

/-! ## Greedy matching: outer loop -/

/-- Full characterization of the greedy pass `matchGo`: index ranges, the
matched/unmatched partition of detection indices, distinctness of claimed
tracker indices, per-detection threshold and greedy maximality, and the
unmatched condition. -/
theorem matchGo_spec (trackers : List (Nat × VehicleTracker)) :
    ∀ (dets : List Detection) (d : Nat) (claimed : List Nat),
      (∀ e ∈ (matchGo trackers d dets claimed).1,
          d ≤ e.d ∧ e.d < d + dets.length ∧ dets[e.d - d]? = some e.det) ∧
      (∀ p ∈ (matchGo trackers d dets claimed).2,
          d ≤ p.1 ∧ p.1 < d + dets.length ∧ dets[p.1 - d]? = some p.2) ∧
      ((matchGo trackers d dets claimed).1.map MatchEntry.d ++
        (matchGo trackers d dets claimed).2.map Prod.fst).Perm
        (List.range' d dets.length) ∧
      (∀ e ∈ (matchGo trackers d dets claimed).1, e.t ∉ claimed) ∧
      ((matchGo trackers d dets claimed).1.map MatchEntry.t).Nodup ∧
      (∀ e ∈ (matchGo trackers d dets claimed).1,
        ∃ q, (e.t, e.tid, q) ∈ detIous trackers e.det ∧ 3/10 < q ∧
          ¬claimedB claimed (matchGo trackers d dets claimed).1 e.d e.t ∧
          ∀ x ∈ detIous trackers e.det,
            ¬claimedB claimed (matchGo trackers d dets claimed).1 e.d x.1 →
              x.2.2 ≤ q) ∧
      (∀ p ∈ (matchGo trackers d dets claimed).2,
        ∀ x ∈ detIous trackers p.2,
          ¬claimedB claimed (matchGo trackers d dets claimed).1 p.1 x.1 →
            x.2.2 ≤ 3/10) := by
  intro dets
  induction dets with
  | nil =>
    intro d claimed
    refine ⟨?_, ?_, ?_, ?_, ?_, ?_, ?_⟩ <;> simp [matchGo]
  | cons det rest ih =>
    intro d claimed
    cases hfb : findBest claimed (detIous trackers det) (3/10) none with
    | some p =>
      have hspec := findBest_spec claimed (detIous trackers det) (3/10) none
      rcases hspec with ⟨h1, _⟩ | ⟨t₀, tid₀, q₀, h1, hmem₀, hncl₀, hgt₀, hmax₀⟩
      · rw [hfb] at h1; cases h1
      rw [hfb] at h1
      injection h1 with h1
      subst h1
      have hgo : matchGo trackers d (det :: rest) claimed =
          (⟨d, det, t₀, tid₀⟩ :: (matchGo trackers (d + 1) rest (t₀ :: claimed)).1,
            (matchGo trackers (d + 1) rest (t₀ :: claimed)).2) := by
        simp [matchGo, hfb]
      obtain ⟨ih1, ih2, ih3, ih4, ih5, ih6, ih7⟩ := ih (d + 1) (t₀ :: claimed)
      -- translating the claimed-before predicate through the head entry
      have htrans : ∀ (i x : Nat), d + 1 ≤ i →
          (claimedB claimed (⟨d, det, t₀, tid₀⟩ ::
              (matchGo trackers (d + 1) rest (t₀ :: claimed)).1) i x ↔
            claimedB (t₀ :: claimed) (matchGo trackers (d + 1) rest (t₀ :: claimed)).1 i x) := by
        intro i x hi
        unfold claimedB
        constructor
        · rintro (hx | ⟨e', he', hd', ht'⟩)
          · exact Or.inl (List.mem_cons_of_mem _ hx)
          · rcases List.mem_cons.mp he' with rfl | he''
            · exact Or.inl (ht' ▸ List.mem_cons_self _ _)
            · exact Or.inr ⟨e', he'', hd', ht'⟩
        · rintro (hx | ⟨e', he', hd', ht'⟩)
          · rcases List.mem_cons.mp hx with rfl | hx'
            · exact Or.inr ⟨⟨d, det, x, tid₀⟩, List.mem_cons_self _ _,
                show d < i by omega, rfl⟩
            · exact Or.inl hx'
          · exact Or.inr ⟨e', List.mem_cons_of_mem _ he', hd', ht'⟩
      rw [hgo]
      refine ⟨?_, ?_, ?_, ?_, ?_, ?_, ?_⟩
      · -- matched index ranges
        intro e he
        rcases List.mem_cons.mp he with rfl | he'
        · simp
        · obtain ⟨ha, hb, hc⟩ := ih1 e he'
          refine ⟨by omega, by simp only [List.length_cons]; omega, ?_⟩
          have hd2 : e.d - d = (e.d - (d + 1)) + 1 := by omega
          rw [hd2, List.getElem?_cons_succ]
          exact hc
      · -- unmatched index ranges
        intro p hp
        obtain ⟨ha, hb, hc⟩ := ih2 p hp
        refine ⟨by omega, by simp only [List.length_cons]; omega, ?_⟩
        have hd2 : p.1 - d = (p.1 - (d + 1)) + 1 := by omega
        rw [hd2, List.getElem?_cons_succ]
        exact hc
      · -- partition of detection indices
        simp only [List.map_cons, List.cons_append, List.length_cons]
        rw [List.range'_succ]
        exact ih3.cons d
      · -- chosen tracker indices lie outside the initial claimed set
        intro e he
        rcases List.mem_cons.mp he with rfl | he'
        · exact hncl₀
        · exact fun hc => ih4 e he' (List.mem_cons_of_mem _ hc)
      · -- chosen tracker indices are pairwise distinct
        simp only [List.map_cons, List.nodup_cons]
        refine ⟨?_, ih5⟩
        intro hc
        obtain ⟨e', he', ht'⟩ := List.mem_map.mp hc
        exact ih4 e' he' (ht' ▸ List.mem_cons_self _ _)
      · -- greedy maximality for each matched entry
        intro e he
        rcases List.mem_cons.mp he with rfl | he'
        · refine ⟨q₀, hmem₀, hgt₀, ?_, ?_⟩
          · intro hcb
            rcases hcb with hx | ⟨e', he', hd', _⟩
            · exact hncl₀ hx
            · rcases List.mem_cons.mp he' with rfl | he''
              · exact lt_irrefl _ hd'
              · have h5 := (ih1 e' he'').1
                have h6 : e'.d < d := hd'
                omega
          · intro x hx hcb
            refine hmax₀ x hx ?_
            intro hxc
            exact hcb (Or.inl hxc)
        · obtain ⟨q, hq1, hq2, hq3, hq4⟩ := ih6 e he'
          have hed : d + 1 ≤ e.d := (ih1 e he').1
          refine ⟨q, hq1, hq2, ?_, ?_⟩
          · rw [htrans e.d e.t hed]; exact hq3
          · intro x hx hcb
            rw [htrans e.d x.1 hed] at hcb
            exact hq4 x hx hcb
      · -- unmatched detections saw nothing unclaimed above threshold
        intro p hp x hx hcb
        have hpd : d + 1 ≤ p.1 := (ih2 p hp).1
        rw [htrans p.1 x.1 hpd] at hcb
        exact ih7 p hp x hx hcb
    | none =>
      have hspec := findBest_spec claimed (detIous trackers det) (3/10) none
      rcases hspec with ⟨_, hle⟩ | ⟨t₀, tid₀, q₀, h1, _⟩
      swap
      · rw [hfb] at h1; cases h1
      have hgo : matchGo trackers d (det :: rest) claimed =
          ((matchGo trackers (d + 1) rest claimed).1,
            (d, det) :: (matchGo trackers (d + 1) rest claimed).2) := by
        simp [matchGo, hfb]
      obtain ⟨ih1, ih2, ih3, ih4, ih5, ih6, ih7⟩ := ih (d + 1) claimed
      rw [hgo]
      refine ⟨?_, ?_, ?_, ih4, ih5, ?_, ?_⟩
      · intro e he
        obtain ⟨ha, hb, hc⟩ := ih1 e he
        refine ⟨by omega, by simp only [List.length_cons]; omega, ?_⟩
        have hd2 : e.d - d = (e.d - (d + 1)) + 1 := by omega
        rw [hd2, List.getElem?_cons_succ]
        exact hc
      · intro p hp
        rcases List.mem_cons.mp hp with rfl | hp'
        · simp
        · obtain ⟨ha, hb, hc⟩ := ih2 p hp'
          refine ⟨by omega, by simp only [List.length_cons]; omega, ?_⟩
          have hd2 : p.1 - d = (p.1 - (d + 1)) + 1 := by omega
          rw [hd2, List.getElem?_cons_succ]
          exact hc
      · simp only [List.map_cons, List.length_cons]
        rw [List.range'_succ]
        exact (List.perm_middle).trans (ih3.cons d)
      · intro e he
        exact ih6 e he
      · intro p hp x hx hcb
        rcases List.mem_cons.mp hp with rfl | hp'
        · refine hle x hx ?_
          intro hxc
          exact hcb (Or.inl hxc)
        · exact ih7 p hp' x hx hcb

/-- Membership in an IoU row determines the tracker and the score. -/
theorem detIous_mem {trackers : List (Nat × VehicleTracker)} {det : Detection}
    {x : Nat × Nat × ℚ} (h : x ∈ detIous trackers det) :
    ∃ tr, trackers[x.1]? = some (x.2.1, tr) ∧
      x.2.2 = calculate_iou det.bbox tr.bbox := by
  unfold detIous at h
  obtain ⟨p, hp, hx⟩ := List.mem_map.mp h
  obtain ⟨i, pr⟩ := p
  have := List.mem_enum_iff_getElem?.mp hp
  subst hx
  exact ⟨pr.2, by simpa using this, rfl⟩

/-- Conversely, every stored tracker contributes its row entry. -/
theorem detIous_mem_of_getElem {trackers : List (Nat × VehicleTracker)}
    {det : Detection} {t tid : Nat} {tr : VehicleTracker}
    (h : trackers[t]? = some (tid, tr)) :
    (t, tid, calculate_iou det.bbox tr.bbox) ∈ detIous trackers det := by
  unfold detIous
  refine List.mem_map.mpr ⟨(t, tid, tr), ?_, rfl⟩
  exact List.mem_enum_iff_getElem?.mpr (by simpa using h)

/-- With distinct keys, positional access agrees with keyed lookup. -/
theorem alookup_of_getElem {trackers : List (Nat × VehicleTracker)}
    (hk : (trackers.map Prod.fst).Nodup) {t tid : Nat} {tr : VehicleTracker}
    (h : trackers[t]? = some (tid, tr)) : alookup tid trackers = some tr := by
  induction trackers generalizing t with
  | nil => simp at h
  | cons p rest ih =>
    obtain ⟨k, v⟩ := p
    simp only [List.map_cons, List.nodup_cons] at hk
    cases t with
    | zero =>
      simp only [List.getElem?_cons_zero, Option.some.injEq] at h
      obtain ⟨rfl, rfl⟩ := Prod.mk.injEq .. ▸ h
      simp [alookup_cons]
    | succ t' =>
      simp only [List.getElem?_cons_succ] at h
      have htid : tid ∈ rest.map Prod.fst := by
        have : (tid, tr) ∈ rest := List.getElem?_mem h
        exact List.mem_map.mpr ⟨_, this, rfl⟩
      have hne : k ≠ tid := fun hc => hk.1 (hc ▸ htid)
      rw [alookup_cons, if_neg hne]
      exact ih hk.2 h

namespace VehicleCounter

/-- The matched entries of a full pass: valid indexed detections, strictly
above-threshold IoU against the stored tracker, and one-to-one on both the
tracker index and (given distinct keys) the track id. -/
theorem matchFull_sound (trackers : List (Nat × VehicleTracker))
    (dets : List Detection) :
    (∀ e ∈ (matchFull trackers dets).1,
      dets[e.d]? = some e.det ∧
        ∃ tr, trackers[e.t]? = some (e.tid, tr) ∧
          3/10 < calculate_iou e.det.bbox tr.bbox) ∧
    ((matchFull trackers dets).1.map MatchEntry.t).Nodup := by
  unfold matchFull
  split_ifs with h1 h2
  · simp
  · simp
  · obtain ⟨s1, _, _, _, s5, s6, _⟩ := matchGo_spec trackers dets 0 []
    refine ⟨?_, s5⟩
    intro e he
    obtain ⟨_, _, hget⟩ := s1 e he
    obtain ⟨q, hq1, hq2, _, _⟩ := s6 e he
    obtain ⟨tr, htr, hqe⟩ := detIous_mem hq1
    refine ⟨by simpa using hget, tr, htr, ?_⟩
    rw [← hqe]
    exact hq2

/-- With distinct dict keys, the matched track ids are pairwise distinct. -/
theorem matchFull_tids_nodup (trackers : List (Nat × VehicleTracker))
    (dets : List Detection) (hk : (trackers.map Prod.fst).Nodup) :
    ((matchFull trackers dets).1.map MatchEntry.tid).Nodup := by
  obtain ⟨hsound, hnd⟩ := matchFull_sound trackers dets
  have hinj := List.inj_on_of_nodup_map hnd
  refine (List.Nodup.of_map MatchEntry.t hnd).map_on ?_
  intro e₁ h₁ e₂ h₂ htid
  obtain ⟨_, tr₁, hg₁, _⟩ := hsound e₁ h₁
  obtain ⟨_, tr₂, hg₂, _⟩ := hsound e₂ h₂
  -- equal track ids at two positions of a nodup key list force equal positions
  have hk₁ : (trackers.map Prod.fst)[e₁.t]? = some e₁.tid := by
    simp [List.getElem?_map, hg₁]
  have hk₂ : (trackers.map Prod.fst)[e₂.t]? = some e₂.tid := by
    simp [List.getElem?_map, hg₂]
  have hlen : e₁.t < (trackers.map Prod.fst).length := by
    by_contra hc
    rw [List.getElem?_eq_none (by omega)] at hk₁
    cases hk₁
  have ht : e₁.t = e₂.t := by
    refine List.getElem?_inj hlen hk ?_
    rw [hk₁, hk₂, htid]
  exact hinj h₁ h₂ ht

end VehicleCounter

namespace VehicleCounter

/-- Lookup of a matched track through a full `update`: the stored tracker is
first refreshed with the matched detection, then run through the
crossing/eviction loop. -/
theorem update_matched_lookup (s : CounterState) (dets : List Detection)
    (w now : Int) (hWF : WF s) (e : MatchEntry)
    (he : e ∈ (matchFull s.trackers dets).1) (tr₀ : VehicleTracker)
    (hl : alookup e.tid s.trackers = some tr₀) :
    alookup e.tid (update s dets w now).trackers =
      (processTrack now (lineX s w) s.direction_mapping
        (VehicleTracker.applyDet now e.det tr₀)).map Prod.fst := by
  rw [update_trackers,
    alookup_kept now (lineX s w) s.direction_mapping _ (stage2_keys_nodup s dets now hWF)]
  have hmid : alookup e.tid (stage2 s dets now) =
      some (VehicleTracker.applyDet now e.det tr₀) := by
    unfold stage2
    rw [alookup_append, alookup_applyMatched_mem now _ _ e he
      (matchFull_tids_nodup s.trackers dets hWF.1), hl]
    rfl
  rw [hmid]
  rfl

/-- A track created during an `update` (fresh id) ends that `update` with
`counted = false` and a single recorded position. -/
theorem update_fresh_not_counted (s : CounterState) (dets : List Detection)
    (w now : Int) (hWF : WF s) (tid : Nat) (hfresh : s.next_track_id ≤ tid)
    (tr' : VehicleTracker)
    (h : alookup tid (update s dets w now).trackers = some tr') :
    tr'.counted = false ∧ tr'.positions.length = 1 := by
  rw [update_trackers,
    alookup_kept now (lineX s w) s.direction_mapping _
      (stage2_keys_nodup s dets now hWF)] at h
  -- the key is fresh, so the lookup lands in the created segment
  cases hmid : alookup tid (stage2 s dets now) with
  | none => rw [hmid] at h; cases h
  | some tr₂ =>
    have htr₂ : ∃ p ∈ (matchFull s.trackers dets).2,
        tr₂ = VehicleTracker.init tid p.2 now := by
      have hmem := alookup_mem hmid
      unfold stage2 at hmem
      rcases List.mem_append.mp hmem with h1 | h2
      · exfalso
        have hk : tid ∈ (applyMatched now (matchFull s.trackers dets).1 s.trackers).map
            Prod.fst := List.mem_map.mpr ⟨_, h1, rfl⟩
        rw [applyMatched_keys] at hk
        have := hWF.2 tid hk
        omega
      · obtain ⟨_, p, hp, hform⟩ := createNew_mem now _ s.next_track_id h2
        exact ⟨p, hp, hform⟩
    obtain ⟨p, _, rfl⟩ := htr₂
    rw [hmid] at h
    -- a fresh track has exactly one position, one `update` old, so it is kept
    -- unchanged: its crossing check needs two positions
    have hstale : (VehicleTracker.init tid p.2 now).is_stale now maxAge = false := by
      simp [VehicleTracker.is_stale, VehicleTracker.init, maxAge]
    have hcross : check_line_crossing (VehicleTracker.init tid p.2 now).positions
        (lineX s w) = false := by
      simp [VehicleTracker.init, check_line_crossing]
    have hproc : processTrack now (lineX s w) s.direction_mapping
        (VehicleTracker.init tid p.2 now) =
        some (VehicleTracker.init tid p.2 now, none) := by
      unfold processTrack
      rw [hstale]
      simp [hcross]
    simp only [Option.some_bind, hproc, Option.map_some'] at h
    injection h with h
    rw [← h]
    exact ⟨rfl, rfl⟩

end VehicleCounter

/-! ## Crossing and trajectory characterizations -/

/-- The crossing test holds exactly when there are at least two recorded
positions and the last two straddle the line, inclusive on the new side. -/
theorem check_line_crossing_iff (positions : List (Int × Int)) (lx : Int) :
    check_line_crossing positions lx = true ↔
      ∃ prev curr, positions.drop (positions.length - 2) = [prev, curr] ∧
        ((prev.1 < lx ∧ lx ≤ curr.1) ∨ (lx < prev.1 ∧ curr.1 ≤ lx)) := by
  unfold check_line_crossing
  cases hrev : positions.reverse with
  | nil =>
    have hp : positions = [] := List.reverse_eq_nil_iff.mp hrev
    subst hp
    simp
  | cons curr rest1 =>
    cases rest1 with
    | nil =>
      have hp : positions = [curr] := by
        have := congrArg List.reverse hrev
        simpa using this
      subst hp
      simp
    | cons prev rest =>
      have hp : positions = rest.reverse ++ [prev, curr] := by
        have := congrArg List.reverse hrev
        simpa using this
      have hd2 : (rest.reverse ++ [prev, curr]).length - 2 = rest.reverse.length := by
        simp
      have hdrop : positions.drop (positions.length - 2) = [prev, curr] := by
        rw [hp, hd2, List.drop_left]
      constructor
      · intro h
        exact ⟨prev, curr, hdrop, by simpa using h⟩
      · rintro ⟨p', c', hd', hcond⟩
        rw [hdrop] at hd'
        have hpc : prev = p' ∧ curr = c' := by
          injection hd' with ha hb
          injection hb with hc _
          exact ⟨ha, hc⟩
        obtain ⟨rfl, rfl⟩ := hpc
        simpa using hcond

theorem get_trajectory_direction_right (t : VehicleTracker) :
    t.get_trajectory_direction = some .RIGHT ↔
      5 ≤ t.positions.length ∧ 30 < trajectoryDisplacement t := by
  unfold VehicleTracker.get_trajectory_direction trajectoryDisplacement
  dsimp only
  set S := meanQ ((t.positions.take 5).map Prod.fst) with hS
  set E := meanQ ((t.positions.drop (t.positions.length - 5)).map Prod.fst) with hE
  split_ifs with h1 h2 h3
  · exact iff_of_false (by simp) (fun h => by omega)
  · exact iff_of_true rfl ⟨by omega, by rwa [abs_of_pos h3] at h2⟩
  · exact iff_of_false (by simp) (fun h => h3 (by linarith [h.2]))
  · exact iff_of_false (by simp)
      (fun h => h2 (lt_of_lt_of_le h.2 (le_abs_self _)))

theorem get_trajectory_direction_left (t : VehicleTracker) :
    t.get_trajectory_direction = some .LEFT ↔
      5 ≤ t.positions.length ∧ trajectoryDisplacement t < -30 := by
  unfold VehicleTracker.get_trajectory_direction trajectoryDisplacement
  dsimp only
  set S := meanQ ((t.positions.take 5).map Prod.fst) with hS
  set E := meanQ ((t.positions.drop (t.positions.length - 5)).map Prod.fst) with hE
  split_ifs with h1 h2 h3
  · exact iff_of_false (by simp) (fun h => by omega)
  · exact iff_of_false (by simp) (fun h => by linarith [h.2, h3])
  · refine iff_of_true rfl ⟨by omega, ?_⟩
    have habs : |E - S| = -(E - S) := abs_of_nonpos (by linarith)
    rw [habs] at h2
    linarith
  · refine iff_of_false (by simp) (fun h => h2 ?_)
    have h4 : 30 < -(E - S) := by linarith [h.2]
    exact lt_of_lt_of_le h4 (neg_le_abs _)

theorem get_trajectory_direction_none (t : VehicleTracker) :
    t.get_trajectory_direction = none ↔
      t.positions.length < 5 ∨ |trajectoryDisplacement t| ≤ 30 := by
  unfold VehicleTracker.get_trajectory_direction trajectoryDisplacement
  dsimp only
  set S := meanQ ((t.positions.take 5).map Prod.fst) with hS
  set E := meanQ ((t.positions.drop (t.positions.length - 5)).map Prod.fst) with hE
  split_ifs with h1 h2
  · exact iff_of_true rfl (Or.inl h1)
  · refine iff_of_false (by simp) ?_
    rintro (h | h)
    · omega
    · linarith
  · exact iff_of_true rfl (Or.inr (le_of_not_lt h2))

theorem get_trajectory_direction_min_length (t : VehicleTracker) (dir : Dir)
    (h : t.get_trajectory_direction = some dir) : 5 ≤ t.positions.length := by
  cases dir
  · exact (get_trajectory_direction_left t |>.mp h).1
  · exact (get_trajectory_direction_right t |>.mp h).1

/-! ## IoU properties -/

theorem calculate_iou_self_pos (b : Box) (hx : b.x1 < b.x2) (hy : b.y1 < b.y2) :
    calculate_iou b b = 1 := by
  unfold calculate_iou
  dsimp only
  rw [max_self, max_self, min_self, min_self,
    max_eq_right (le_of_lt (sub_pos.mpr hx)), max_eq_right (le_of_lt (sub_pos.mpr hy))]
  have hA : 0 < (b.x2 - b.x1) * (b.y2 - b.y1) :=
    mul_pos (sub_pos.mpr hx) (sub_pos.mpr hy)
  rw [if_pos (by linarith)]
  have h1 : (b.x2 - b.x1) * (b.y2 - b.y1) + (b.x2 - b.x1) * (b.y2 - b.y1) -
      (b.x2 - b.x1) * (b.y2 - b.y1) = (b.x2 - b.x1) * (b.y2 - b.y1) := by ring
  rw [h1]
  exact div_self (ne_of_gt hA)

theorem calculate_iou_comm (a b : Box) : calculate_iou a b = calculate_iou b a := by
  unfold calculate_iou
  dsimp only
  rw [max_comm b.x1 a.x1, max_comm b.y1 a.y1, min_comm b.x2 a.x2, min_comm b.y2 a.y2,
    add_comm ((b.x2 - b.x1) * (b.y2 - b.y1)) ((a.x2 - a.x1) * (a.y2 - a.y1))]

theorem calculate_iou_disjoint (a b : Box)
    (h : a.x2 ≤ b.x1 ∨ b.x2 ≤ a.x1 ∨ a.y2 ≤ b.y1 ∨ b.y2 ≤ a.y1) :
    calculate_iou a b = 0 := by
  unfold calculate_iou
  dsimp only
  have hI : max 0 (min a.x2 b.x2 - max a.x1 b.x1) *
      max 0 (min a.y2 b.y2 - max a.y1 b.y1) = 0 := by
    rcases h with h | h | h | h
    · have hz : min a.x2 b.x2 - max a.x1 b.x1 ≤ 0 := by
        have h1 : min a.x2 b.x2 ≤ a.x2 := min_le_left ..
        have h2 : b.x1 ≤ max a.x1 b.x1 := le_max_right ..
        linarith
      rw [max_eq_left hz, zero_mul]
    · have hz : min a.x2 b.x2 - max a.x1 b.x1 ≤ 0 := by
        have h1 : min a.x2 b.x2 ≤ b.x2 := min_le_right ..
        have h2 : a.x1 ≤ max a.x1 b.x1 := le_max_left ..
        linarith
      rw [max_eq_left hz, zero_mul]
    · have hz : min a.y2 b.y2 - max a.y1 b.y1 ≤ 0 := by
        have h1 : min a.y2 b.y2 ≤ a.y2 := min_le_left ..
        have h2 : b.y1 ≤ max a.y1 b.y1 := le_max_right ..
        linarith
      rw [max_eq_left hz, mul_zero]
    · have hz : min a.y2 b.y2 - max a.y1 b.y1 ≤ 0 := by
        have h1 : min a.y2 b.y2 ≤ b.y2 := min_le_right ..
        have h2 : a.y1 ≤ max a.y1 b.y1 := le_max_left ..
        linarith
      rw [max_eq_left hz, mul_zero]
  rw [hI]
  split_ifs <;> simp

theorem calculate_iou_mem_unit (a b : Box) (hax : a.x1 ≤ a.x2) (hay : a.y1 ≤ a.y2)
    (hbx : b.x1 ≤ b.x2) (hby : b.y1 ≤ b.y2) :
    0 ≤ calculate_iou a b ∧ calculate_iou a b ≤ 1 := by
  unfold calculate_iou
  dsimp only
  set W := max 0 (min a.x2 b.x2 - max a.x1 b.x1) with hW
  set H := max 0 (min a.y2 b.y2 - max a.y1 b.y1) with hH
  have hW0 : 0 ≤ W := le_max_left ..
  have hH0 : 0 ≤ H := le_max_left ..
  have hWa : W ≤ a.x2 - a.x1 := by
    rw [hW]
    refine max_le (by linarith) ?_
    have h1 : min a.x2 b.x2 ≤ a.x2 := min_le_left ..
    have h2 : a.x1 ≤ max a.x1 b.x1 := le_max_left ..
    linarith
  have hHa : H ≤ a.y2 - a.y1 := by
    rw [hH]
    refine max_le (by linarith) ?_
    have h1 : min a.y2 b.y2 ≤ a.y2 := min_le_left ..
    have h2 : a.y1 ≤ max a.y1 b.y1 := le_max_left ..
    linarith
  have hWb : W ≤ b.x2 - b.x1 := by
    rw [hW]
    refine max_le (by linarith) ?_
    have h1 : min a.x2 b.x2 ≤ b.x2 := min_le_right ..
    have h2 : b.x1 ≤ max a.x1 b.x1 := le_max_right ..
    linarith
  have hHb : H ≤ b.y2 - b.y1 := by
    rw [hH]
    refine max_le (by linarith) ?_
    have h1 : min a.y2 b.y2 ≤ b.y2 := min_le_right ..
    have h2 : b.y1 ≤ max a.y1 b.y1 := le_max_right ..
    linarith
  have hIA : W * H ≤ (a.x2 - a.x1) * (a.y2 - a.y1) :=
    mul_le_mul hWa hHa hH0 (by linarith)
  have hIB : W * H ≤ (b.x2 - b.x1) * (b.y2 - b.y1) :=
    mul_le_mul hWb hHb hH0 (by linarith)
  have hI0 : 0 ≤ W * H := mul_nonneg hW0 hH0
  split_ifs with hu
  · constructor
    · exact div_nonneg hI0 (le_of_lt hu)
    · rw [div_le_one hu]
      linarith
  · constructor <;> norm_num

theorem calculate_iou_union_zero (a b : Box)
    (h : (a.x2 - a.x1) * (a.y2 - a.y1) + (b.x2 - b.x1) * (b.y2 - b.y1) -
        max 0 (min a.x2 b.x2 - max a.x1 b.x1) *
          max 0 (min a.y2 b.y2 - max a.y1 b.y1) = 0) :
    calculate_iou a b = 0 := by
  unfold calculate_iou
  dsimp only
  rw [h]
  simp

/-! ## Claim theorems -/

/-- C4: count conservation — after construction, after every `update` call,
and after every `reset_counts`, the grand total `total_counts[event]` equals
the sum over all categories of `counts[event][category]`, for each event. -/
theorem count_conservation :
    (∀ (lp : ℚ) (dm : Dir → Option Event),
      VehicleCounter.CountInvariant (VehicleCounter.init lp dm)) ∧
    (∀ (s : CounterState) (dets : List Detection) (w now : Int),
      VehicleCounter.CountInvariant s →
        VehicleCounter.CountInvariant (VehicleCounter.update s dets w now)) ∧
    (∀ s : CounterState,
      VehicleCounter.CountInvariant (VehicleCounter.reset_counts s)) :=
  ⟨VehicleCounter.CountInvariant_init,
    fun s dets w now h => VehicleCounter.CountInvariant_update s dets w now h,
    VehicleCounter.CountInvariant_reset⟩

/-- Witness for C4: the invariant propagates through a concrete update of a
freshly constructed counter. -/
theorem count_conservation_witness :
    VehicleCounter.CountInvariant (VehicleCounter.update
      (VehicleCounter.init (1/2) VehicleCounter.defaultDirectionMapping)
      [exDet] 100 0) :=
  count_conservation.2.1 _ [exDet] 100 0
    (count_conservation.1 (1/2) VehicleCounter.defaultDirectionMapping)

/-- C6 counterexample: for the zero-area box `(0,0,0,0)` (which satisfies
x1 ≤ x2 and y1 ≤ y2), `calculate_iou box box` is `0`, not `1`. -/
theorem iou_self_degenerate_cex :
    calculate_iou ⟨0, 0, 0, 0⟩ ⟨0, 0, 0, 0⟩ = 0 ∧
      calculate_iou ⟨0, 0, 0, 0⟩ ⟨0, 0, 0, 0⟩ ≠ 1 := by
  constructor <;> norm_num [calculate_iou]

/-- C6 (amended): `iou(box, box) = 1` for every box of positive area;
`iou` of disjoint boxes is `0`; `iou` is symmetric; for well-formed boxes
the result lies in `[0, 1]`; and a zero union area yields `0`. -/
theorem iou_properties :
    (∀ b : Box, b.x1 < b.x2 → b.y1 < b.y2 → calculate_iou b b = 1) ∧
    (∀ a b : Box,
      (a.x2 ≤ b.x1 ∨ b.x2 ≤ a.x1 ∨ a.y2 ≤ b.y1 ∨ b.y2 ≤ a.y1) →
        calculate_iou a b = 0) ∧
    (∀ a b : Box, calculate_iou a b = calculate_iou b a) ∧
    (∀ a b : Box, a.x1 ≤ a.x2 → a.y1 ≤ a.y2 → b.x1 ≤ b.x2 → b.y1 ≤ b.y2 →
      0 ≤ calculate_iou a b ∧ calculate_iou a b ≤ 1) ∧
    (∀ a b : Box,
      (a.x2 - a.x1) * (a.y2 - a.y1) + (b.x2 - b.x1) * (b.y2 - b.y1) -
          max 0 (min a.x2 b.x2 - max a.x1 b.x1) *
            max 0 (min a.y2 b.y2 - max a.y1 b.y1) = 0 →
        calculate_iou a b = 0) :=
  ⟨calculate_iou_self_pos, calculate_iou_disjoint, calculate_iou_comm,
    calculate_iou_mem_unit, calculate_iou_union_zero⟩

/-- Witness for C6 at concrete boxes. -/
theorem iou_properties_witness :
    calculate_iou ⟨0, 0, 2, 2⟩ ⟨0, 0, 2, 2⟩ = 1 ∧
      calculate_iou ⟨0, 0, 2, 2⟩ ⟨5, 5, 7, 9⟩ = 0 :=
  ⟨iou_properties.1 ⟨0, 0, 2, 2⟩ (by decide) (by decide),
    iou_properties.2.1 ⟨0, 0, 2, 2⟩ ⟨5, 5, 7, 9⟩ (by decide)⟩

/-- C7: `get_parking_availability` reports `netCars = countsIN[Car] −
countsOUT[Car]`, `available = max 0 (capacity − netCars)`, and an occupancy
percentage of `netCars/capacity*100` guarded to `0` at zero capacity; the
spec scenario capacity=100, 12 in, 3 out yields 91 available and 9.0%. -/
theorem parking_availability_correct :
    (∀ (s : CounterState) (cap : Int),
      (VehicleCounter.get_parking_availability s cap).currently_parked =
        (s.counts .IN .Car : Int) - (s.counts .OUT .Car : Int) ∧
      (VehicleCounter.get_parking_availability s cap).available =
        max 0 (cap - ((s.counts .IN .Car : Int) - (s.counts .OUT .Car : Int))) ∧
      (VehicleCounter.get_parking_availability s cap).occupancy_percent =
        (if 0 < cap then
          (((s.counts .IN .Car : Int) - (s.counts .OUT .Car : Int) : Int) : ℚ)
            / (cap : ℚ) * 100
        else 0)) ∧
    (∀ s : CounterState,
      (VehicleCounter.get_parking_availability s 0).occupancy_percent = 0) ∧
    ((VehicleCounter.get_parking_availability exParkingState 100).available = 91 ∧
      (VehicleCounter.get_parking_availability exParkingState 100).occupancy_percent = 9) := by
  have h1 : exParkingState.counts .IN .Car = 12 := rfl
  have h2 : exParkingState.counts .OUT .Car = 3 := rfl
  refine ⟨fun s cap => ⟨rfl, rfl, rfl⟩, fun s => rfl, ?_, ?_⟩
  · norm_num [VehicleCounter.get_parking_availability, h1, h2]
  · norm_num [VehicleCounter.get_parking_availability, h1, h2]

/-- C9 counterexample: constructing with `linePosition = 2 ∉ (0,1)` does not
fail — the constructor performs no validation and returns a normal state that
stores `2`. -/
theorem init_accepts_invalid_line_position :
    VehicleCounter.initE 2 VehicleCounter.defaultDirectionMapping =
      Except.ok (VehicleCounter.init 2 VehicleCounter.defaultDirectionMapping) ∧
    (VehicleCounter.init 2 VehicleCounter.defaultDirectionMapping).line_position = 2 :=
  ⟨rfl, rfl⟩

/-- C9 (amended): construction never fails for any `linePosition` — the
constructor body contains no validation, always succeeds, and stores the
value unchanged. -/
theorem init_no_validation :
    ∀ (lp : ℚ) (dm : Dir → Option Event),
      VehicleCounter.initE lp dm = Except.ok (VehicleCounter.init lp dm) ∧
        (VehicleCounter.init lp dm).line_position = lp :=
  fun lp dm => ⟨rfl, rfl⟩

/-- C8: `reset_counts` zeroes every per-category counter and both grand
totals while leaving the configuration, the tracker set and every tracker
field (including each `counted` flag) untouched; a track counted before the
reset stays counted through any later sequence of updates, and the counting
branch never fires for a counted track, so it is never recounted. -/
theorem reset_zeroes_counts_only :
    (∀ s : CounterState,
      (VehicleCounter.reset_counts s).trackers = s.trackers ∧
      (VehicleCounter.reset_counts s).line_position = s.line_position ∧
      (VehicleCounter.reset_counts s).direction_mapping = s.direction_mapping ∧
      (VehicleCounter.reset_counts s).next_track_id = s.next_track_id ∧
      (∀ e c, (VehicleCounter.reset_counts s).counts e c = 0) ∧
      (∀ e, (VehicleCounter.reset_counts s).total_counts e = 0)) ∧
    (∀ (s : CounterState) (frames : List (List Detection × Int × Int))
        (tid : Nat) (tr tr' : VehicleTracker), VehicleCounter.WF s →
      alookup tid s.trackers = some tr → tr.counted = true →
      alookup tid (VehicleCounter.runUpdates (VehicleCounter.reset_counts s)
        frames).trackers = some tr' →
      tr'.counted = true) ∧
    (∀ (now lx : Int) (dm : Dir → Option Event) (tr : VehicleTracker),
      tr.counted = true →
      VehicleCounter.processTrack now lx dm tr = none ∨
        VehicleCounter.processTrack now lx dm tr = some (tr, none)) := by
  refine ⟨fun s => ⟨rfl, rfl, rfl, rfl, fun e c => rfl, fun e => rfl⟩, ?_, ?_⟩
  · intro s frames tid tr tr' hWF hl hc h'
    exact VehicleCounter.counted_mono_runUpdates frames
      (VehicleCounter.reset_counts s) hWF tid tr hl hc tr' h'
  · intro now lx dm tr hc
    exact VehicleCounter.processTrack_of_counted now lx dm tr hc

/-- Witness for C8: a counted track survives a reset followed by an update
with its `counted` flag intact. -/
theorem reset_zeroes_counts_only_witness :
    alookup 1 (VehicleCounter.runUpdates
        (VehicleCounter.reset_counts exCountedState) [([], 100, 1)]).trackers =
      some exCountedTrack ∧
    exCountedTrack.counted = true := by
  have h : alookup 1 (VehicleCounter.runUpdates
      (VehicleCounter.reset_counts exCountedState) [([], 100, 1)]).trackers =
      some exCountedTrack := rfl
  refine ⟨h, reset_zeroes_counts_only.2.1 exCountedState [([], 100, 1)] 1
    exCountedTrack exCountedTrack ?_ rfl rfl h⟩
  constructor <;> simp [exCountedState, exState]

/-- C10: a track flips to `counted` only with at least five recorded
positions (the counting branch needs a resolved trajectory direction, which
requires five samples); a track created during an `update` ends that update
uncounted with exactly one recorded position. -/
theorem counted_requires_five_positions :
    (∀ (now lx : Int) (dm : Dir → Option Event) (tr tr' : VehicleTracker)
        (inc : Option (Event × Category)),
      VehicleCounter.processTrack now lx dm tr = some (tr', inc) →
      tr.counted = false → tr'.counted = true → 5 ≤ tr.positions.length) ∧
    (∀ (s : CounterState) (dets : List Detection) (w now : Int) (tid : Nat)
        (tr' : VehicleTracker), VehicleCounter.WF s → s.next_track_id ≤ tid →
      alookup tid (VehicleCounter.update s dets w now).trackers = some tr' →
      tr'.counted = false ∧ tr'.positions.length = 1) := by
  constructor
  · intro now lx dm tr tr' inc h hf ht
    rcases VehicleCounter.processTrack_cases now lx dm tr tr' inc h with
      ⟨rfl, rfl⟩ | ⟨_, _, dir, ev, hdir, _, _, _⟩
    · rw [hf] at ht; cases ht
    · exact get_trajectory_direction_min_length tr dir hdir
  · intro s dets w now tid tr' hWF hfresh h
    exact VehicleCounter.update_fresh_not_counted s dets w now hWF tid hfresh tr' h

/-- Witness for C10: the track created for a single unmatched detection on a
fresh counter ends the update uncounted with one position. -/
theorem counted_requires_five_positions_witness :
    ∃ tr', alookup 1 (VehicleCounter.update
        (VehicleCounter.init (1/2) VehicleCounter.defaultDirectionMapping)
        [exDet] 100 0).trackers = some tr' ∧
      tr'.counted = false ∧ tr'.positions.length = 1 := by
  have h : alookup 1 (VehicleCounter.update
      (VehicleCounter.init (1/2) VehicleCounter.defaultDirectionMapping)
      [exDet] 100 0).trackers = some (VehicleTracker.init 1 exDet 0) := rfl
  exact ⟨_, h, counted_requires_five_positions.2 _ [exDet] 100 0 1 _
    (by constructor <;> simp [VehicleCounter.init, VehicleCounter.WF])
    (le_refl 1) h⟩

/-- C2: the `counted` flag never reverts over any sequence of updates; the
counting branch fires only while `counted = false`, emits exactly one
increment, and sets `counted = true` in the same step (a counted track is
passed through unchanged with no increment); and each update raises the sum
of the grand totals by exactly the number of increments it emitted. -/
theorem counted_at_most_once :
    (∀ (frames : List (List Detection × Int × Int)) (s : CounterState)
        (tid : Nat) (tr tr' : VehicleTracker), VehicleCounter.WF s →
      alookup tid s.trackers = some tr → tr.counted = true →
      alookup tid (VehicleCounter.runUpdates s frames).trackers = some tr' →
      tr'.counted = true) ∧
    (∀ (now lx : Int) (dm : Dir → Option Event) (tr tr' : VehicleTracker)
        (inc : Option (Event × Category)),
      VehicleCounter.processTrack now lx dm tr = some (tr', inc) →
      ((∃ x, inc = some x) → tr.counted = false ∧ tr'.counted = true) ∧
      (tr.counted = true → tr' = tr ∧ inc = none)) ∧
    (∀ (s : CounterState) (dets : List Detection) (w now : Int),
      ∑ e : Event, (VehicleCounter.update s dets w now).total_counts e =
        (∑ e : Event, s.total_counts e) +
          (VehicleCounter.increments s dets w now).length) := by
  refine ⟨?_, ?_, VehicleCounter.total_sum_update⟩
  · intro frames s tid tr tr' hWF hl hc h'
    exact VehicleCounter.counted_mono_runUpdates frames s hWF tid tr hl hc tr' h'
  · intro now lx dm tr tr' inc h
    rcases VehicleCounter.processTrack_cases now lx dm tr tr' inc h with
      ⟨rfl, rfl⟩ | ⟨hf, _, dir, ev, _, _, htr', hinc⟩
    · refine ⟨?_, fun _ => ⟨rfl, rfl⟩⟩
      rintro ⟨x, hx⟩
      cases hx
    · constructor
      · intro _
        exact ⟨hf, by rw [htr']⟩
      · intro hc
        rw [hc] at hf; cases hf

/-- Witness for C2: a counted track stays counted through an update. -/
theorem counted_at_most_once_witness :
    ∃ tr', alookup 1 (VehicleCounter.runUpdates exCountedState
        [([], 100, 1)]).trackers = some tr' ∧ tr'.counted = true := by
  have h : alookup 1 (VehicleCounter.runUpdates exCountedState
      [([], 100, 1)]).trackers = some exCountedTrack := rfl
  refine ⟨_, h, counted_at_most_once.1 [([], 100, 1)] exCountedState 1
    exCountedTrack exCountedTrack ?_ rfl rfl h⟩
  constructor <;> simp [exCountedState, exState]

/-- C3: crossings are detected exactly when at least two positions are
recorded and the last two straddle `lineX` (inclusive on the new side); the
trajectory direction resolves to RIGHT exactly when five samples exist and
the five-sample mean displacement exceeds 30, to LEFT when it is below −30,
and to no direction otherwise; and for an uncounted, non-stale track the
counting branch emits exactly one `(event, category)` increment and marks the
track counted when crossing and direction both hold (IN for RIGHT, OUT for
LEFT under the default mapping), and otherwise changes nothing. -/
theorem crossing_detection_and_emission :
    (∀ (positions : List (Int × Int)) (lx : Int),
      check_line_crossing positions lx = true ↔
        ∃ prev curr, positions.drop (positions.length - 2) = [prev, curr] ∧
          ((prev.1 < lx ∧ lx ≤ curr.1) ∨ (lx < prev.1 ∧ curr.1 ≤ lx))) ∧
    (∀ t : VehicleTracker,
      (t.get_trajectory_direction = some .RIGHT ↔
        5 ≤ t.positions.length ∧ 30 < trajectoryDisplacement t) ∧
      (t.get_trajectory_direction = some .LEFT ↔
        5 ≤ t.positions.length ∧ trajectoryDisplacement t < -30) ∧
      (t.get_trajectory_direction = none ↔
        t.positions.length < 5 ∨ |trajectoryDisplacement t| ≤ 30)) ∧
    (∀ (now lx : Int) (tr : VehicleTracker), tr.counted = false →
      tr.is_stale now VehicleCounter.maxAge = false →
      ((check_line_crossing tr.positions lx = false ∨
          tr.get_trajectory_direction = none) →
        VehicleCounter.processTrack now lx
          VehicleCounter.defaultDirectionMapping tr = some (tr, none)) ∧
      (∀ dir, check_line_crossing tr.positions lx = true →
        tr.get_trajectory_direction = some dir →
        VehicleCounter.processTrack now lx
            VehicleCounter.defaultDirectionMapping tr =
          some ({ tr with
              direction := some (if dir = Dir.RIGHT then Event.IN else Event.OUT)
              counted := true
              crossed_line := true },
            some ((if dir = Dir.RIGHT then Event.IN else Event.OUT),
              tr.category)))) := by
  refine ⟨check_line_crossing_iff,
    fun t => ⟨get_trajectory_direction_right t, get_trajectory_direction_left t,
      get_trajectory_direction_none t⟩, ?_⟩
  intro now lx tr hc hs
  constructor
  · intro hno
    unfold VehicleCounter.processTrack
    simp only [hs, Bool.false_eq_true, if_false]
    rcases hno with hcr | hdir
    · rw [if_neg (by rw [hcr]; rintro ⟨_, h2⟩; cases h2)]
    · split_ifs with h2
      · rw [hdir]
      · rfl
  · intro dir hcr hdir
    unfold VehicleCounter.processTrack
    simp only [hs, Bool.false_eq_true, if_false]
    rw [if_pos ⟨hc, hcr⟩, hdir]
    cases dir <;> rfl

/-- C5: the associator maps detections to distinct tracks one-to-one —
with no trackers every detection is unmatched, with no detections nothing is
matched; every match strictly beats the 0.3 IoU threshold against its
tracker; matched and unmatched detection indices partition the input; each
match is IoU-maximal among the trackers not claimed by an earlier detection
of the same pass, and an unmatched detection saw no unclaimed tracker above
the threshold.  The function is pure: it only returns the mapping. -/
theorem associator_greedy_spec :
    (∀ dets : List Detection,
      match_detections_to_trackers [] dets = ([], List.range dets.length)) ∧
    (∀ trs : List (Nat × VehicleTracker),
      match_detections_to_trackers trs [] = ([], [])) ∧
    (∀ (trs : List (Nat × VehicleTracker)) (dets : List Detection),
      (trs.map Prod.fst).Nodup →
        ((matchFull trs dets).1.map MatchEntry.tid).Nodup) ∧
    (∀ (trs : List (Nat × VehicleTracker)) (dets : List Detection),
      ∀ e ∈ (matchFull trs dets).1,
        dets[e.d]? = some e.det ∧ ∃ tr, trs[e.t]? = some (e.tid, tr) ∧
          3/10 < calculate_iou e.det.bbox tr.bbox) ∧
    (∀ (trs : List (Nat × VehicleTracker)) (dets : List Detection),
      ((matchFull trs dets).1.map MatchEntry.d ++
        (matchFull trs dets).2.map Prod.fst).Perm (List.range dets.length)) ∧
    (∀ (trs : List (Nat × VehicleTracker)) (dets : List Detection),
      ∀ e ∈ (matchFull trs dets).1, ∃ tr,
        trs[e.t]? = some (e.tid, tr) ∧
        ¬claimedB [] (matchFull trs dets).1 e.d e.t ∧
        ∀ x ∈ detIous trs e.det,
          ¬claimedB [] (matchFull trs dets).1 e.d x.1 →
            x.2.2 ≤ calculate_iou e.det.bbox tr.bbox) ∧
    (∀ (trs : List (Nat × VehicleTracker)) (dets : List Detection),
      ∀ p ∈ (matchFull trs dets).2, ∀ x ∈ detIous trs p.2,
        ¬claimedB [] (matchFull trs dets).1 p.1 x.1 → x.2.2 ≤ 3/10) := by
  refine ⟨?_, ?_, VehicleCounter.matchFull_tids_nodup,
    fun trs dets => (VehicleCounter.matchFull_sound trs dets).1, ?_, ?_, ?_⟩
  · intro dets
    simp [match_detections_to_trackers, matchFull, List.enum_map_fst]
  · intro trs
    by_cases h : trs.length = 0 <;>
      simp [match_detections_to_trackers, matchFull, h]
  · intro trs dets
    unfold matchFull
    split_ifs with h1 h2
    · simp [List.enum_map_fst]
    · simp [List.length_eq_zero.mp h2]
    · rw [List.range_eq_range']
      exact (matchGo_spec trs dets 0 []).2.2.1
  · intro trs dets e he
    revert he
    unfold matchFull
    split_ifs with h1 h2
    · intro he; simp at he
    · intro he; simp at he
    · intro he
      obtain ⟨_, _, _, _, _, s6, _⟩ := matchGo_spec trs dets 0 []
      obtain ⟨q, hq1, _, hq3, hq4⟩ := s6 e he
      obtain ⟨tr, htr, hqe⟩ := detIous_mem hq1
      refine ⟨tr, htr, hq3, ?_⟩
      intro x hx hcb
      rw [← hqe]
      exact hq4 x hx hcb
  · intro trs dets p hp x hx
    revert hp hx
    unfold matchFull
    split_ifs with h1 h2
    · intro hp hx
      rw [List.length_eq_zero.mp h1] at hx
      simp [detIous] at hx
    · intro hp _; simp at hp
    · intro hp hx
      exact (matchGo_spec trs dets 0 []).2.2.2.2.2.2 p hp x hx

/-- Witness for C5: distinctness of matched ids under concrete nodup keys. -/
theorem associator_greedy_spec_witness :
    ((matchFull [(1, exTrack)] [exDet]).1.map MatchEntry.tid).Nodup ∧
      match_detections_to_trackers [] [exDet] = ([], [0]) :=
  ⟨associator_greedy_spec.2.2.1 [(1, exTrack)] [exDet] (by simp),
    associator_greedy_spec.1 [exDet]⟩

/-- Witness for C3: the already-crossed track with a rightward trajectory is
counted as IN by the branch. -/
theorem crossing_detection_and_emission_witness :
    VehicleCounter.processTrack 0 50 VehicleCounter.defaultDirectionMapping
        exCrossedTrack =
      some ({ exCrossedTrack with
          direction := some Event.IN
          counted := true
          crossed_line := true },
        some (Event.IN, Category.Car)) := by
  have hdir : exCrossedTrack.get_trajectory_direction = some Dir.RIGHT :=
    (get_trajectory_direction_right exCrossedTrack).mpr
      ⟨by simp [exCrossedTrack, exTrack],
        by norm_num [trajectoryDisplacement, meanQ, exCrossedTrack, exTrack]⟩
  have h := (crossing_detection_and_emission.2.2 0 50 exCrossedTrack rfl rfl).2
    Dir.RIGHT (by decide) hdir
  simpa using h

/-- C1 counterexample: a live uncounted track whose stored last two positions
already satisfy the crossing condition with a resolvable, mapped direction,
but which is stale at the update's start and receives no match in that
update, is evicted without being counted: in the per-track loop the
staleness check runs before crossing evaluation (`continue`), so the claim
as stated fails for such a track. -/
theorem stale_crossing_evicted_uncounted_cex :
    check_line_crossing exCrossedTrack.positions 50 = true ∧
    exCrossedTrack.get_trajectory_direction = some Dir.RIGHT ∧
    exCrossedState.direction_mapping Dir.RIGHT = some Event.IN ∧
    exCrossedTrack.counted = false ∧
    VehicleTracker.is_stale 10 VehicleCounter.maxAge exCrossedTrack = true ∧
    alookup 1 exCrossedState.trackers = some exCrossedTrack ∧
    alookup 1 (VehicleCounter.update exCrossedState [] 100 10).trackers = none ∧
    (VehicleCounter.update exCrossedState [] 100 10).total_counts Event.IN = 0 ∧
    (VehicleCounter.update exCrossedState [] 100 10).total_counts Event.OUT = 0 := by
  refine ⟨by decide, ?_, rfl, rfl, rfl, rfl, rfl, rfl, rfl⟩
  exact (get_trajectory_direction_right exCrossedTrack).mpr
    ⟨by simp [exCrossedTrack, exTrack],
      by norm_num [trajectoryDisplacement, meanQ, exCrossedTrack, exTrack]⟩

/-- C1 (amended): a track matched in this update — whose refreshed last two
positions satisfy the crossing condition and whose trajectory direction
resolves through the direction mapping — is counted during this update and
survives it, even when its `last_seen` age already exceeded the staleness
threshold at the update's start: the match refreshes `last_seen` before the
per-track staleness check runs, so eviction cannot precede its crossing
evaluation.  A stale track that receives no match is instead evicted without
crossing evaluation (see the counterexample). -/
theorem matched_crossing_counted_before_eviction
    (s : CounterState) (dets : List Detection) (w now : Int)
    (hWF : VehicleCounter.WF s) (e : MatchEntry)
    (he : e ∈ (matchFull s.trackers dets).1) (tr₀ : VehicleTracker)
    (hl : alookup e.tid s.trackers = some tr₀)
    (hstale : VehicleCounter.maxAge < now - tr₀.last_seen)
    (hunc : tr₀.counted = false)
    (hcross : check_line_crossing (VehicleTracker.applyDet now e.det tr₀).positions
      (VehicleCounter.lineX s w) = true)
    (hdir : ∃ dir ev,
      (VehicleTracker.applyDet now e.det tr₀).get_trajectory_direction = some dir ∧
        s.direction_mapping dir = some ev) :
    ∃ tr', alookup e.tid (VehicleCounter.update s dets w now).trackers = some tr' ∧
      tr'.counted = true ∧ tr'.crossed_line = true := by
  obtain ⟨dir, ev, hdir1, hdir2⟩ := hdir
  rw [VehicleCounter.update_matched_lookup s dets w now hWF e he tr₀ hl]
  have hns : (VehicleTracker.applyDet now e.det tr₀).is_stale now
      VehicleCounter.maxAge = false := by
    simp [VehicleTracker.is_stale, VehicleTracker.applyDet, VehicleCounter.maxAge]
  have hc2 : (VehicleTracker.applyDet now e.det tr₀).counted = false := hunc
  unfold VehicleCounter.processTrack
  simp only [hns, Bool.false_eq_true, if_false]
  rw [if_pos ⟨hc2, hcross⟩, hdir1]
  dsimp only
  rw [hdir2]
  exact ⟨_, rfl, rfl, rfl⟩

/-- Witness for C1: a track whose last_seen age exceeds the threshold at the
update's start is matched in that update, crosses, and is counted. -/
theorem matched_crossing_counted_before_eviction_witness :
    ∃ tr', alookup 1 (VehicleCounter.update exState [exDet] 100 10).trackers =
        some tr' ∧ tr'.counted = true ∧ tr'.crossed_line = true := by
  have hiou : calculate_iou exDet.bbox exTrack.bbox = 1 := by
    norm_num [calculate_iou, exDet, exBox, exTrack]
  have hfb : findBest [] (detIous exState.trackers exDet) (3/10) none =
      some (0, 1) := by
    show findBest [] [(0, 1, calculate_iou exDet.bbox exTrack.bbox)] (3/10) none =
      some (0, 1)
    rw [hiou]
    norm_num [findBest]
  have hmatch : matchFull exState.trackers [exDet] = ([⟨0, exDet, 0, 1⟩], []) := by
    have h0 : matchFull exState.trackers [exDet] =
        matchGo exState.trackers 0 [exDet] [] := rfl
    rw [h0]
    unfold matchGo
    rw [hfb]
    rfl
  have he : (⟨0, exDet, 0, 1⟩ : MatchEntry) ∈ (matchFull exState.trackers [exDet]).1 := by
    rw [hmatch]
    exact List.mem_singleton.mpr rfl
  have hlx : VehicleCounter.lineX exState 100 = 50 := by
    have h1 : ((100 : Int) : ℚ) * exState.line_position = 50 := by
      norm_num [exState]
    rw [VehicleCounter.lineX, h1]
    decide
  have hcenter : get_center exDet.bbox = (200, 10) := by
    have h1 : (exDet.bbox.x1 + exDet.bbox.x2) / 2 = (200 : ℚ) := by
      norm_num [exDet, exBox]
    have h2 : (exDet.bbox.y1 + exDet.bbox.y2) / 2 = (10 : ℚ) := by
      norm_num [exDet, exBox]
    rw [get_center, h1, h2]
    decide
  have hpos : (VehicleTracker.applyDet 10 exDet exTrack).positions =
      [(0, 0), (0, 0), (0, 0), (0, 0), (0, 0), (0, 0), (0, 0), (0, 0), (200, 10)] := by
    simp [VehicleTracker.applyDet, appendBounded, exTrack, hcenter]
  have hcross : check_line_crossing (VehicleTracker.applyDet 10 exDet exTrack).positions
      (VehicleCounter.lineX exState 100) = true := by
    rw [hpos, hlx]
    decide
  have hdisp : trajectoryDisplacement (VehicleTracker.applyDet 10 exDet exTrack) = 40 := by
    norm_num [trajectoryDisplacement, hpos, meanQ]
  have hdir : (VehicleTracker.applyDet 10 exDet exTrack).get_trajectory_direction =
      some Dir.RIGHT :=
    (get_trajectory_direction_right _).mpr
      ⟨by rw [hpos]; norm_num, by rw [hdisp]; norm_num⟩
  exact matched_crossing_counted_before_eviction exState [exDet] 100 10
    (by constructor <;> simp [exState]) ⟨0, exDet, 0, 1⟩ he exTrack rfl
    (by decide) rfl hcross ⟨Dir.RIGHT, Event.IN, hdir, rfl⟩
